import Mathlib

/-! PDF417 reader: scale estimator and decode orchestrator

A shallow embedding of `core/src/pdf417/PDFReader.cpp`:

* `GetMinWidth`, `GetMaxWidth`, `GetMinCodewordWidth`, `GetMaxCodewordWidth`
  (lines 31-57), in 32-bit `int` arithmetic;
* `DoDecode` (lines 59-88), the loop over the candidates of the detector with
  its early returns, as a recursion over the candidate list that threads the
  output list;
* `Reader.decode` (lines 115-124), the single-result wrapper.

The detector (`Detector::Detect`) and the symbol decoder
(`ScanningDecoder::Decode`) are defined in other files; they are parameters of
the embedding (`Externals`).
-/

namespace ZXing

/-! ## Types declared in headers outside `PDFReader.cpp` -/

/-- Modelled from the spec: `ErrorStatus` (ErrorStatus.h), the closed set of
classified outcomes named by the specification; `NoError` is its "Success". -/
inductive ErrorStatus where
  | NoError
  | NotFound
  | FormatError
  | ChecksumError
deriving DecidableEq

/-- Modelled from the spec: `StatusIsOK` (ErrorStatus.h), the test for
Success. -/
def StatusIsOK (status : ErrorStatus) : Bool :=
  decide (status = ErrorStatus.NoError)

/-- Modelled from the spec: `StatusIsError` (ErrorStatus.h), the test for any
outcome other than Success. -/
def StatusIsError (status : ErrorStatus) : Bool :=
  decide (status ≠ ErrorStatus.NoError)

/-- Modelled from the spec: `ResultPoint` (ResultPoint.h), a 2-D coordinate.
The coordinates are `float`s in the source; every finite `float` is a rational
number. -/
structure ResultPoint where
  x : ℚ
  y : ℚ
deriving DecidableEq

/-- Modelled from the spec: `Nullable<T>`, a value that may be absent.
`p == nullptr` is `p = none`. -/
abbrev Nullable (α : Type) : Type := Option α

/-- Modelled from the spec: `Nullable<T>::value()`. A present point yields its
coordinate. What the call yields on an absent point is fixed by the wrapper's
header, which is not part of this file, and is the parameter `absent`: `none`
when the access fails (the specification: "fail fast ... rather than silently
produce a partially-populated result"), `some d` when the wrapper hands back a
placeholder `d` that is no located point. -/
def Nullable.value {α : Type} (absent : Option α) (p : Nullable α) : Option α :=
  match p with
  | some v => some v
  | none => absent

/-- Modelled from the spec: `BarcodeFormat` (BarcodeFormat.h), the format tag of
a result; only `PDF_417` is produced by this reader. -/
inductive BarcodeFormat where
  | PDF_417
deriving DecidableEq

namespace Pdf417

/-- Modelled from the spec: `DecoderResultExtra` (PDFDecoderResultExtra.h), the
PDF417 macro block data a decode may attach. -/
structure DecoderResultExtra where
  segmentIndex : Int
  fileId : String
  optionalData : List Int
  lastSegment : Bool
deriving DecidableEq

end Pdf417

/-- Modelled from the spec: the dynamic kinds of the object behind
`DecoderResult::extra()`, "a closed tagged variant over known metadata payload
kinds": the PDF417 extra metadata, or an object of a different kind. -/
inductive CustomData where
  | decoderResultExtra (extra : Pdf417.DecoderResultExtra)
  | other (kind : Nat)
deriving DecidableEq

/-- Modelled from the spec: `std::dynamic_pointer_cast<DecoderResultExtra>`: the
object itself when the pointer is not null and the object is of the
`DecoderResultExtra` kind, null otherwise. -/
def dynamic_pointer_cast (extra : Option CustomData) : Option Pdf417.DecoderResultExtra :=
  match extra with
  | some (CustomData.decoderResultExtra e) => some e
  | _ => none

/-- Modelled from the spec: `DecoderResult` (DecoderResult.h), the payload of a
Symbol Decoder call: text, raw bytes, error-correction level and an optional
extra object (`extra()` is a shared pointer, null when nothing is attached). -/
structure DecoderResult where
  text : String
  rawBytes : List Nat
  ecLevel : String
  extra : Option CustomData
deriving DecidableEq

namespace ResultMetadata

/-- Modelled from the spec: `ResultMetadata::Key`, restricted to the two kinds
of metadata this reader writes. -/
inductive Key where
  | ERROR_CORRECTION_LEVEL
  | PDF417_EXTRA_METADATA
deriving DecidableEq

/-- Modelled from the spec: the values a metadata entry holds: the
error-correction level, or the extra-metadata object. -/
inductive Value where
  | level (ecLevel : String)
  | custom (extra : Pdf417.DecoderResultExtra)
deriving DecidableEq

end ResultMetadata

/-- Modelled from the spec: `ResultMetadata`, a mapping from metadata kinds to
values, held as an association list with at most one entry per key. -/
abbrev ResultMetadata : Type := List (ResultMetadata.Key × ResultMetadata.Value)

/-- Modelled from the spec: `ResultMetadata::put(key, value)`: the entry of
`key` becomes `value`, the other entries are kept. -/
def ResultMetadata.put (m : ResultMetadata) (key : ResultMetadata.Key)
    (value : ResultMetadata.Value) : ResultMetadata :=
  (m.filter fun e => decide (e.1 ≠ key)) ++ [(key, value)]

/-- Modelled from the spec: reading the entry of `key` in a metadata mapping. -/
def ResultMetadata.get (m : ResultMetadata) (key : ResultMetadata.Key) :
    Option ResultMetadata.Value :=
  (m.find? fun e => decide (e.1 = key)).map Prod.snd

/-- Modelled from the spec: `Result` (Result.h): either a decoded barcode
(status `NoError`, text, raw bytes, the anchor points, a format tag, metadata)
or a status-only failure marker with no payload. -/
structure Result where
  status : ErrorStatus
  text : String
  rawBytes : List Nat
  resultPoints : List ResultPoint
  format : Option BarcodeFormat
  metadata : ResultMetadata
deriving DecidableEq

/-- Modelled from the spec: the constructor
`Result(text, rawBytes, resultPoints, format)` of a decoded barcode; its
metadata starts empty. -/
def Result.decoded (text : String) (rawBytes : List Nat) (resultPoints : List ResultPoint)
    (format : BarcodeFormat) : Result :=
  { status := ErrorStatus.NoError, text := text, rawBytes := rawBytes,
    resultPoints := resultPoints, format := some format, metadata := [] }

/-- Modelled from the spec: the constructor `Result(status)`: "a result object
carrying that status with no payload". -/
def Result.ofStatus (status : ErrorStatus) : Result :=
  { status := status, text := "", rawBytes := [], resultPoints := [],
    format := none, metadata := [] }

namespace Pdf417

/-! ## 32-bit `int` arithmetic -/

/-- The value of `std::numeric_limits<int>::max()` for a 32-bit `int`. -/
def INT_MAX : Int := 2 ^ 31 - 1

/-- The 32-bit two's-complement `int` that a mathematical integer wraps to. -/
def wrapInt (n : Int) : Int := (n + 2 ^ 31) % 2 ^ 32 - 2 ^ 31

/-- The conversion `static_cast<int>(x)` of a coordinate: truncation toward
zero, wrapped to 32 bits. -/
def toInt (x : ℚ) : Int := wrapInt (x.num.tdiv x.den)

namespace Common

/-- Modelled from the spec: `Common::MODULES_IN_CODEWORD` (PDFCommon.h), the
number of modules of a PDF417 codeword. -/
def MODULES_IN_CODEWORD : Int := 17

/-- Modelled from the spec: `Common::MODULES_IN_STOP_PATTERN` (PDFCommon.h), the
number of modules of the PDF417 stop pattern. -/
def MODULES_IN_STOP_PATTERN : Int := 18

end Common

/-- The anchor octet `std::array<Nullable<ResultPoint>, 8>` of one candidate;
`p[i]` is the field `p`*i*. -/
structure Points where
  p0 : Nullable ResultPoint
  p1 : Nullable ResultPoint
  p2 : Nullable ResultPoint
  p3 : Nullable ResultPoint
  p4 : Nullable ResultPoint
  p5 : Nullable ResultPoint
  p6 : Nullable ResultPoint
  p7 : Nullable ResultPoint
deriving DecidableEq

/-- The elements of the array from `begin()` to `end()`. -/
def Points.toList (p : Points) : List (Nullable ResultPoint) :=
  [p.p0, p.p1, p.p2, p.p3, p.p4, p.p5, p.p6, p.p7]

/-! ## Scale estimator (lines 31-57) -/

/-- The function `GetMinWidth` (lines 31-37): the sentinel `INT_MAX` when a point
is absent, else the distance of the truncated x-coordinates. -/
def GetMinWidth (p1 p2 : Nullable ResultPoint) : Int :=
  match p1, p2 with
  | none, _ => INT_MAX
  | _, none => INT_MAX
  | some a, some b => wrapInt |wrapInt (toInt a.x - toInt b.x)|

/-- The function `GetMinCodewordWidth` (lines 39-43): the minimum of the widths
of (p0, p4) and (p1, p5) and of the widths of (p6, p2) and (p7, p3) times
`MODULES_IN_CODEWORD / MODULES_IN_STOP_PATTERN`, multiplied first, then divided
with truncation toward zero. -/
def GetMinCodewordWidth (p : Points) : Int :=
  min
    (min (GetMinWidth p.p0 p.p4)
      ((wrapInt (GetMinWidth p.p6 p.p2 * Common.MODULES_IN_CODEWORD)).tdiv
        Common.MODULES_IN_STOP_PATTERN))
    (min (GetMinWidth p.p1 p.p5)
      ((wrapInt (GetMinWidth p.p7 p.p3 * Common.MODULES_IN_CODEWORD)).tdiv
        Common.MODULES_IN_STOP_PATTERN))

/-- The function `GetMaxWidth` (lines 45-51): `0` when a point is absent, else the
distance of the truncated x-coordinates. -/
def GetMaxWidth (p1 p2 : Nullable ResultPoint) : Int :=
  match p1, p2 with
  | none, _ => 0
  | _, none => 0
  | some a, some b => wrapInt |wrapInt (toInt a.x - toInt b.x)|

/-- The function `GetMaxCodewordWidth` (lines 53-57): the maximum of the same four
candidates, built on `GetMaxWidth`. -/
def GetMaxCodewordWidth (p : Points) : Int :=
  max
    (max (GetMaxWidth p.p0 p.p4)
      ((wrapInt (GetMaxWidth p.p6 p.p2 * Common.MODULES_IN_CODEWORD)).tdiv
        Common.MODULES_IN_STOP_PATTERN))
    (max (GetMaxWidth p.p1 p.p5)
      ((wrapInt (GetMaxWidth p.p7 p.p3 * Common.MODULES_IN_CODEWORD)).tdiv
        Common.MODULES_IN_STOP_PATTERN))

/-! ## Decode orchestrator (lines 59-88) -/

namespace Detector

/-- Modelled from the spec: `Detector::Result` (PDFDetector.h): the shared bit
matrix and the candidates, in the order the detector found them. -/
structure Result (BitMatrix : Type) where
  bits : BitMatrix
  points : List Points

end Detector

/-- What `DoDecode` uses and this file does not define.
`Detect image hints multiple` is `Detector::Detect`: it gives a status and the
detector result it wrote. `Decode bits p4 p5 p6 p7 minWidth maxWidth` is
`ScanningDecoder::Decode`: it gives a status and the decoder result it wrote.
`absent` is what `Nullable<ResultPoint>::value()` yields on an absent point
(see `Nullable.value`). -/
structure Externals (BinaryBitmap DecodeHints BitMatrix : Type) where
  Detect : BinaryBitmap → Option DecodeHints → Bool →
    ErrorStatus × Detector.Result BitMatrix
  Decode : BitMatrix → Nullable ResultPoint → Nullable ResultPoint →
    Nullable ResultPoint → Nullable ResultPoint → Int → Int →
    ErrorStatus × DecoderResult
  absent : Option ResultPoint

/-- What a call of `DoDecode` leaves behind: the status it returned (`none`
when `value()` failed on an absent point and no status was returned), the
content of the list `results` after the call, and the candidates on which
`ScanningDecoder::Decode` was invoked, in the order of the calls. -/
structure Run where
  status : Option ErrorStatus
  results : List ZXing.Result
  decoded : List Points
deriving DecidableEq

/-- The vector `foundPoints` (lines 71-72): `value()` of each of the 8 points,
in order. -/
def foundPoints (absent : Option ResultPoint) (points : Points) :
    Option (List ResultPoint) :=
  points.toList.mapM (Nullable.value absent)

/-- The result built from a successful decode (lines 71-77): the text, the raw
bytes, the found points and the format, then the error-correction level, then
the extra metadata when the extra object is a `DecoderResultExtra`. -/
def makeResult (absent : Option ResultPoint) (points : Points)
    (decoderResult : DecoderResult) : Option ZXing.Result :=
  match foundPoints absent points with
  | none => none
  | some found =>
    let result := ZXing.Result.decoded decoderResult.text decoderResult.rawBytes found
      BarcodeFormat.PDF_417
    let result := { result with
      metadata := result.metadata.put ResultMetadata.Key.ERROR_CORRECTION_LEVEL
        (ResultMetadata.Value.level decoderResult.ecLevel) }
    match dynamic_pointer_cast decoderResult.extra with
    | some extra =>
      some { result with
        metadata := result.metadata.put ResultMetadata.Key.PDF417_EXTRA_METADATA
          (ResultMetadata.Value.custom extra) }
    | none => some result

/-- The call of `ScanningDecoder::Decode` on one candidate (line 69). -/
def decodeCandidate {BinaryBitmap DecodeHints BitMatrix : Type}
    (ext : Externals BinaryBitmap DecodeHints BitMatrix) (bits : BitMatrix)
    (points : Points) : ErrorStatus × DecoderResult :=
  ext.Decode bits points.p4 points.p5 points.p6 points.p7
    (GetMinCodewordWidth points) (GetMaxCodewordWidth points)

/-- The loop of `DoDecode` over the candidates still to visit (lines 67-87),
with the list `results` and the decoder calls made so far. -/
def decodeLoop {BinaryBitmap DecodeHints BitMatrix : Type}
    (ext : Externals BinaryBitmap DecodeHints BitMatrix) (bits : BitMatrix)
    (multiple : Bool) : List Points → List ZXing.Result → List Points → Run
  | [], results, decoded =>
    { status := some (if results.isEmpty then ErrorStatus.NotFound else ErrorStatus.NoError),
      results := results, decoded := decoded }
  | points :: rest, results, decoded =>
    let call := decodeCandidate ext bits points
    if StatusIsOK call.1 then
      match makeResult ext.absent points call.2 with
      | none => { status := none, results := results, decoded := decoded ++ [points] }
      | some result =>
        if !multiple then
          { status := some ErrorStatus.NoError, results := results ++ [result],
            decoded := decoded ++ [points] }
        else
          decodeLoop ext bits multiple rest (results ++ [result]) (decoded ++ [points])
    else if !multiple then
      { status := some call.1, results := results, decoded := decoded ++ [points] }
    else
      decodeLoop ext bits multiple rest results (decoded ++ [points])

/-- The function `DoDecode` (lines 59-88): the detector is run once; its error
status is returned at once; otherwise the loop runs over its candidates. -/
def DoDecode {BinaryBitmap DecodeHints BitMatrix : Type}
    (ext : Externals BinaryBitmap DecodeHints BitMatrix) (image : BinaryBitmap)
    (hints : Option DecodeHints) (multiple : Bool) (results : List ZXing.Result) : Run :=
  let detected := ext.Detect image hints multiple
  if StatusIsError detected.1 then
    { status := some detected.1, results := results, decoded := [] }
  else
    decodeLoop ext detected.2.bits multiple detected.2.points results []

/-- The method `Reader::decode` (lines 115-124): `DoDecode` in single mode from an
empty list, then the front of the list on `NoError` and `Result(status)` on any
other status; `none` when no `Result` is returned. -/
def Reader.decode {BinaryBitmap DecodeHints BitMatrix : Type}
    (ext : Externals BinaryBitmap DecodeHints BitMatrix) (image : BinaryBitmap)
    (hints : Option DecodeHints) : Option ZXing.Result :=
  let run := DoDecode ext image hints false []
  match run.status with
  | none => none
  | some status =>
    if StatusIsOK status then run.results.head? else some (ZXing.Result.ofStatus status)

/-! ## The specification's words -/

/-- The specification's anchors "all resolved": each of the 8 points of the
candidate is present. -/
def Points.resolved (p : Points) : Prop := ∀ q ∈ p.toList, q ≠ none

instance (p : Points) : Decidable p.resolved := by
  unfold Points.resolved
  infer_instance

/-- The present points of an octet, in order: the 8 anchor points of a candidate
whose points are all resolved. -/
def Points.anchors (p : Points) : List ResultPoint := p.toList.filterMap id

/-- The specification's AggregatedResult of a successful decode: the text and
the raw bytes of the decoded payload, the anchor points, the format tag, and a
metadata mapping with the error-correction level and, only if the decoder
produced an object of the extra-metadata kind, that object. -/
def aggregatedResult (anchors : List ResultPoint) (payload : DecoderResult) : ZXing.Result :=
  { status := ErrorStatus.NoError,
    text := payload.text,
    rawBytes := payload.rawBytes,
    resultPoints := anchors,
    format := some BarcodeFormat.PDF_417,
    metadata :=
      (ResultMetadata.Key.ERROR_CORRECTION_LEVEL, ResultMetadata.Value.level payload.ecLevel) ::
        match payload.extra with
        | some (CustomData.decoderResultExtra extra) =>
          [(ResultMetadata.Key.PDF417_EXTRA_METADATA, ResultMetadata.Value.custom extra)]
        | _ => [] }

/-- The result sequence the loop builds in multi mode: what `makeResult` yields
for the candidates whose decode succeeded, in the order of the candidates. -/
def successResults {BinaryBitmap DecodeHints BitMatrix : Type}
    (ext : Externals BinaryBitmap DecodeHints BitMatrix) (bits : BitMatrix)
    (cands : List Points) : List ZXing.Result :=
  cands.filterMap fun c =>
    if StatusIsOK (decodeCandidate ext bits c).1 then
      makeResult ext.absent c (decodeCandidate ext bits c).2
    else none

/-! ## Concrete collaborators, on which the definitions are evaluated -/

namespace Example

/-- A candidate with its 8 points present; the example decoder reads it. -/
def readable : Points :=
  { p0 := some ⟨10, 10⟩, p1 := some ⟨10, 50⟩, p2 := some ⟨110, 10⟩, p3 := some ⟨110, 50⟩,
    p4 := some ⟨27, 10⟩, p5 := some ⟨27, 50⟩, p6 := some ⟨92, 10⟩, p7 := some ⟨92, 50⟩ }

/-- A candidate on which the example decoder fails with `FormatError`. -/
def damaged : Points := { readable with p4 := some ⟨0, 10⟩ }

/-- A candidate on which the example decoder fails with `ChecksumError`. -/
def corrupted : Points := { readable with p4 := some ⟨1, 10⟩ }

/-- A candidate the example decoder reads, attaching PDF417 extra metadata. -/
def withExtra : Points := { readable with p4 := some ⟨2, 10⟩ }

/-- A candidate the example decoder reads, attaching an object of another
kind. -/
def withOther : Points := { readable with p4 := some ⟨3, 10⟩ }

/-- A candidate with points 4-7 present and points 0-3 absent; the example
decoder reads it. -/
def regionOnly : Points :=
  { p0 := none, p1 := none, p2 := none, p3 := none,
    p4 := some ⟨27, 10⟩, p5 := some ⟨27, 50⟩, p6 := some ⟨92, 10⟩, p7 := some ⟨92, 50⟩ }

/-- The payload the example decoder recovers. -/
def payload : DecoderResult :=
  { text := "PDF417", rawBytes := [80, 68, 70], ecLevel := "2", extra := none }

/-- The extra metadata the example decoder attaches to `withExtra`. -/
def macroBlock : DecoderResultExtra :=
  { segmentIndex := 0, fileId := "17", optionalData := [], lastSegment := true }

/-- A detector that reports what the image prescribes, and a decoder that
decides on the x-coordinate of the top-left region point: `0` is a format
error, `1` a checksum error, `2` a success with extra metadata, `3` a success
with an extra object of another kind, anything else a plain success. Taking
`value()` of an absent point fails. -/
def externals : Externals (ErrorStatus × Detector.Result Unit) Unit Unit where
  absent := none
  Detect := fun image _ _ => image
  Decode := fun _ p4 _ _ _ _ _ =>
    match p4 with
    | none => (ErrorStatus.NotFound, { payload with text := "" })
    | some q =>
      if q.x = 0 then (ErrorStatus.FormatError, { payload with text := "" })
      else if q.x = 1 then (ErrorStatus.ChecksumError, { payload with text := "" })
      else if q.x = 2 then
        (ErrorStatus.NoError,
          { payload with extra := some (CustomData.decoderResultExtra macroBlock) })
      else if q.x = 3 then
        (ErrorStatus.NoError, { payload with extra := some (CustomData.other 7) })
      else (ErrorStatus.NoError, payload)

/-- An image in which the detector finds the given candidates. -/
def imageWith (cands : List Points) : ErrorStatus × Detector.Result Unit :=
  (ErrorStatus.NoError, { bits := (), points := cands })

/-- The aggregated result of `readable`. -/
def readableResult : ZXing.Result :=
  { status := ErrorStatus.NoError, text := "PDF417", rawBytes := [80, 68, 70],
    resultPoints := [⟨10, 10⟩, ⟨10, 50⟩, ⟨110, 10⟩, ⟨110, 50⟩, ⟨27, 10⟩, ⟨27, 50⟩,
      ⟨92, 10⟩, ⟨92, 50⟩],
    format := some BarcodeFormat.PDF_417,
    metadata := [(ResultMetadata.Key.ERROR_CORRECTION_LEVEL, ResultMetadata.Value.level "2")] }

/-- The aggregated result of `withExtra`. -/
def withExtraResult : ZXing.Result :=
  { status := ErrorStatus.NoError, text := "PDF417", rawBytes := [80, 68, 70],
    resultPoints := [⟨10, 10⟩, ⟨10, 50⟩, ⟨110, 10⟩, ⟨110, 50⟩, ⟨2, 10⟩, ⟨27, 50⟩,
      ⟨92, 10⟩, ⟨92, 50⟩],
    format := some BarcodeFormat.PDF_417,
    metadata := [(ResultMetadata.Key.ERROR_CORRECTION_LEVEL, ResultMetadata.Value.level "2"),
      (ResultMetadata.Key.PDF417_EXTRA_METADATA, ResultMetadata.Value.custom macroBlock)] }

/-- The same collaborators, with a `value()` that hands back the origin for an
absent point. -/
def lenient : Externals (ErrorStatus × Detector.Result Unit) Unit Unit :=
  { externals with absent := some ⟨0, 0⟩ }

/-- What `lenient` builds from `regionOnly`: four placeholders, then the four
region points. -/
def regionOnlyResult : ZXing.Result :=
  { status := ErrorStatus.NoError, text := "PDF417", rawBytes := [80, 68, 70],
    resultPoints := [⟨0, 0⟩, ⟨0, 0⟩, ⟨0, 0⟩, ⟨0, 0⟩, ⟨27, 10⟩, ⟨27, 50⟩,
      ⟨92, 10⟩, ⟨92, 50⟩],
    format := some BarcodeFormat.PDF_417,
    metadata := [(ResultMetadata.Key.ERROR_CORRECTION_LEVEL, ResultMetadata.Value.level "2")] }

end Example

/-! ## The specification's words on the scale estimator -/

/-- Truncation of a coordinate toward zero, as a mathematical integer: what
`static_cast<int>` yields when the value fits an `int`. -/
def truncate (x : ℚ) : Int := x.num.tdiv x.den

/-- The specification's "pixel range" of a point that may be absent: when the
point is present, its truncated x-coordinate lies between 0 and 2^26. -/
def inPixelRange : Nullable ResultPoint → Prop
  | none => True
  | some a => 0 ≤ truncate a.x ∧ truncate a.x ≤ 2 ^ 26

instance (q : Nullable ResultPoint) : Decidable (inPixelRange q) := by
  cases q <;> unfold inPixelRange <;> infer_instance

/-- The specification's octet in the pixel range: each of its present points
is. -/
def Points.inPixelRange (p : Points) : Prop :=
  Pdf417.inPixelRange p.p0 ∧ Pdf417.inPixelRange p.p1 ∧ Pdf417.inPixelRange p.p2 ∧
  Pdf417.inPixelRange p.p3 ∧ Pdf417.inPixelRange p.p4 ∧ Pdf417.inPixelRange p.p5 ∧
  Pdf417.inPixelRange p.p6 ∧ Pdf417.inPixelRange p.p7

instance (p : Points) : Decidable p.inPixelRange := by
  unfold Points.inPixelRange
  infer_instance

/-- The specification's "fully resolved" pairing: both of its points are
present. -/
def pairResolved (a b : Nullable ResultPoint) : Prop := a ≠ none ∧ b ≠ none

instance (a b : Nullable ResultPoint) : Decidable (pairResolved a b) := by
  unfold pairResolved
  infer_instance

/-- The specification's "at least one pairing fully resolved", over the four
pairings (p0, p4), (p1, p5), (p6, p2), (p7, p3). -/
def Points.somePairResolved (p : Points) : Prop :=
  pairResolved p.p0 p.p4 ∨ pairResolved p.p1 p.p5 ∨ pairResolved p.p6 p.p2 ∨
  pairResolved p.p7 p.p3

instance (p : Points) : Decidable p.somePairResolved := by
  unfold Points.somePairResolved
  infer_instance

/-- The specification's horizontal pixel distance of two present points: the
distance of their truncated x-coordinates, as a mathematical integer. -/
def pairDistance (a b : ResultPoint) : Int := |truncate a.x - truncate b.x|

/-- The specification's candidate width of a direct pairing, (p0, p4) or
(p1, p5): the distance, when the pairing is fully resolved. -/
def directCandidate (a b : Nullable ResultPoint) : List Int :=
  match a, b with
  | some a, some b => [pairDistance a b]
  | _, _ => []

/-- The specification's candidate width of a stop-pattern pairing, (p6, p2) or
(p7, p3): the distance times 17, divided by 18, when the pairing is fully
resolved. -/
def stopCandidate (a b : Nullable ResultPoint) : List Int :=
  match a, b with
  | some a, some b => [pairDistance a b * 17 / 18]
  | _, _ => []

/-- The specification's candidate widths of the fully resolved pairings
alone. -/
def resolvedCandidates (p : Points) : List Int :=
  directCandidate p.p0 p.p4 ++ stopCandidate p.p6 p.p2 ++
  directCandidate p.p1 p.p5 ++ stopCandidate p.p7 p.p3

namespace Example

/-- The octet whose 8 points are absent. -/
def allAbsent : Points :=
  { p0 := none, p1 := none, p2 := none, p3 := none,
    p4 := none, p5 := none, p6 := none, p7 := none }

/-- An octet in which the start-pattern pairings (p0, p4) and (p1, p5) alone are
resolved, with widths 17 and 19. -/
def startOnly : Points :=
  { p0 := some ⟨10, 10⟩, p1 := some ⟨10, 50⟩, p2 := none, p3 := none,
    p4 := some ⟨27, 10⟩, p5 := some ⟨29, 50⟩, p6 := none, p7 := none }

/-- An octet in which the stop-pattern pairing (p6, p2) alone is resolved, with
width 36. -/
def stopOnly : Points :=
  { p0 := none, p1 := some ⟨10, 50⟩, p2 := some ⟨128, 10⟩, p3 := none,
    p4 := none, p5 := none, p6 := some ⟨92, 10⟩, p7 := none }

/-- A point of x-coordinate 9/10. -/
def nineTenths : ResultPoint := ⟨⟨9, 10, by decide, by decide⟩, 0⟩

/-- A point of x-coordinate 11/10. -/
def elevenTenths : ResultPoint := ⟨⟨11, 10, by decide, by decide⟩, 0⟩

end Example

/-! ## Facts about the status tests -/

theorem StatusIsOK_iff (s : ErrorStatus) : StatusIsOK s = true ↔ s = ErrorStatus.NoError := by
  simp [StatusIsOK]

theorem StatusIsOK_false_iff (s : ErrorStatus) :
    StatusIsOK s = false ↔ s ≠ ErrorStatus.NoError := by
  simp [StatusIsOK]

theorem StatusIsError_eq_not (s : ErrorStatus) : StatusIsError s = !StatusIsOK s := by
  cases s <;> rfl

/-! ## The loop, one candidate at a time -/

section Loop

variable {BinaryBitmap DecodeHints BitMatrix : Type}
variable (ext : Externals BinaryBitmap DecodeHints BitMatrix) (bits : BitMatrix)

theorem decodeLoop_nil (multiple : Bool) (results : List ZXing.Result) (decoded : List Points) :
    decodeLoop ext bits multiple [] results decoded =
      { status := some (if results.isEmpty then ErrorStatus.NotFound else ErrorStatus.NoError),
        results := results, decoded := decoded } := by
  simp [decodeLoop]

theorem decodeLoop_cons_fail_single (points : Points) (rest : List Points)
    (results : List ZXing.Result) (decoded : List Points)
    (h : StatusIsOK (decodeCandidate ext bits points).1 = false) :
    decodeLoop ext bits false (points :: rest) results decoded =
      { status := some (decodeCandidate ext bits points).1, results := results,
        decoded := decoded ++ [points] } := by
  simp [decodeLoop, h]

theorem decodeLoop_cons_fail_multi (points : Points) (rest : List Points)
    (results : List ZXing.Result) (decoded : List Points)
    (h : StatusIsOK (decodeCandidate ext bits points).1 = false) :
    decodeLoop ext bits true (points :: rest) results decoded =
      decodeLoop ext bits true rest results (decoded ++ [points]) := by
  simp [decodeLoop, h]

theorem decodeLoop_cons_ok_single (points : Points) (rest : List Points)
    (results : List ZXing.Result) (decoded : List Points) (r : ZXing.Result)
    (h : StatusIsOK (decodeCandidate ext bits points).1 = true)
    (hr : makeResult ext.absent points (decodeCandidate ext bits points).2 = some r) :
    decodeLoop ext bits false (points :: rest) results decoded =
      { status := some ErrorStatus.NoError, results := results ++ [r],
        decoded := decoded ++ [points] } := by
  simp [decodeLoop, h, hr]

theorem decodeLoop_cons_ok_multi (points : Points) (rest : List Points)
    (results : List ZXing.Result) (decoded : List Points) (r : ZXing.Result)
    (h : StatusIsOK (decodeCandidate ext bits points).1 = true)
    (hr : makeResult ext.absent points (decodeCandidate ext bits points).2 = some r) :
    decodeLoop ext bits true (points :: rest) results decoded =
      decodeLoop ext bits true rest (results ++ [r]) (decoded ++ [points]) := by
  simp [decodeLoop, h, hr]

theorem decodeLoop_cons_ok_absent (multiple : Bool) (points : Points) (rest : List Points)
    (results : List ZXing.Result) (decoded : List Points)
    (h : StatusIsOK (decodeCandidate ext bits points).1 = true)
    (hr : makeResult ext.absent points (decodeCandidate ext bits points).2 = none) :
    decodeLoop ext bits multiple (points :: rest) results decoded =
      { status := none, results := results, decoded := decoded ++ [points] } := by
  simp [decodeLoop, h, hr]

/-- What the loop appends: the output list keeps its initial content, and every
appended result is the result built from a candidate whose decode succeeded; at
most one result is appended per candidate, and at most one in single mode. -/
theorem decodeLoop_results (multiple : Bool) :
    ∀ (cands : List Points) (results : List ZXing.Result) (decoded : List Points),
      ∃ produced : List ZXing.Result,
        (decodeLoop ext bits multiple cands results decoded).results = results ++ produced ∧
        produced.length ≤ cands.length ∧
        (multiple = false → produced.length ≤ 1) ∧
        ∀ r ∈ produced, ∃ c ∈ cands,
          StatusIsOK (decodeCandidate ext bits c).1 = true ∧
          makeResult ext.absent c (decodeCandidate ext bits c).2 = some r := by
  intro cands
  induction cands with
  | nil =>
    intro results decoded
    exact ⟨[], by simp [decodeLoop_nil], by simp, by simp, by simp⟩
  | cons c rest ih =>
    intro results decoded
    cases hok : StatusIsOK (decodeCandidate ext bits c).1 with
    | false =>
      cases multiple with
      | false =>
        exact ⟨[], by simp [decodeLoop_cons_fail_single ext bits c rest results decoded hok],
          by simp, by simp, by simp⟩
      | true =>
        obtain ⟨produced, h1, h2, _, h4⟩ := ih results (decoded ++ [c])
        refine ⟨produced, ?_, ?_, by simp, ?_⟩
        · rw [decodeLoop_cons_fail_multi ext bits c rest results decoded hok]
          exact h1
        · simp only [List.length_cons]
          omega
        · intro r hr
          obtain ⟨c1, hc1, hc2⟩ := h4 r hr
          exact ⟨c1, List.mem_cons_of_mem _ hc1, hc2⟩
    | true =>
      cases hres : makeResult ext.absent c (decodeCandidate ext bits c).2 with
      | none =>
        exact ⟨[], by simp [decodeLoop_cons_ok_absent ext bits multiple c rest results decoded hok hres],
          by simp, by simp, by simp⟩
      | some r0 =>
        cases multiple with
        | false =>
          refine ⟨[r0], ?_, by simp, by simp, ?_⟩
          · rw [decodeLoop_cons_ok_single ext bits c rest results decoded r0 hok hres]
          · intro r hr
            have hr0 : r = r0 := by simpa using hr
            subst hr0
            exact ⟨c, List.mem_cons_self _ _, hok, hres⟩
        | true =>
          obtain ⟨produced, h1, h2, _, h4⟩ := ih (results ++ [r0]) (decoded ++ [c])
          refine ⟨r0 :: produced, ?_, ?_, by simp, ?_⟩
          · rw [decodeLoop_cons_ok_multi ext bits c rest results decoded r0 hok hres, h1]
            simp
          · simp only [List.length_cons]
            omega
          · intro r hr
            rcases List.mem_cons.mp hr with hr0 | hr1
            · subst hr0
              exact ⟨c, List.mem_cons_self _ _, hok, hres⟩
            · obtain ⟨c1, hc1, hc2⟩ := h4 r hr1
              exact ⟨c1, List.mem_cons_of_mem _ hc1, hc2⟩

/-- The status the loop returns against the output list: Success comes with a
non-empty list, any other status leaves the list as it was, and in multi mode
any other status comes with an empty list. -/
theorem decodeLoop_status (multiple : Bool) :
    ∀ (cands : List Points) (results : List ZXing.Result) (decoded : List Points)
      (s : ErrorStatus),
      (decodeLoop ext bits multiple cands results decoded).status = some s →
        (s = ErrorStatus.NoError →
          (decodeLoop ext bits multiple cands results decoded).results ≠ []) ∧
        (s ≠ ErrorStatus.NoError →
          (decodeLoop ext bits multiple cands results decoded).results = results) ∧
        (multiple = true → s ≠ ErrorStatus.NoError →
          (decodeLoop ext bits multiple cands results decoded).results = []) := by
  intro cands
  induction cands with
  | nil =>
    intro results decoded s hs
    rw [decodeLoop_nil] at hs ⊢
    cases results with
    | nil =>
      simp at hs
      subst hs
      simp
    | cons r rs =>
      simp at hs
      subst hs
      simp
  | cons c rest ih =>
    intro results decoded s hs
    cases hok : StatusIsOK (decodeCandidate ext bits c).1 with
    | false =>
      cases multiple with
      | false =>
        rw [decodeLoop_cons_fail_single ext bits c rest results decoded hok] at hs ⊢
        simp at hs
        subst hs
        have hne := (StatusIsOK_false_iff _).mp hok
        simp [hne]
      | true =>
        rw [decodeLoop_cons_fail_multi ext bits c rest results decoded hok] at hs ⊢
        exact ih results (decoded ++ [c]) s hs
    | true =>
      cases hres : makeResult ext.absent c (decodeCandidate ext bits c).2 with
      | none =>
        rw [decodeLoop_cons_ok_absent ext bits multiple c rest results decoded hok hres] at hs
        simp at hs
      | some r0 =>
        cases multiple with
        | false =>
          rw [decodeLoop_cons_ok_single ext bits c rest results decoded r0 hok hres] at hs ⊢
          simp at hs
          subst hs
          simp
        | true =>
          rw [decodeLoop_cons_ok_multi ext bits c rest results decoded r0 hok hres] at hs ⊢
          obtain ⟨h1, _, h3⟩ := ih (results ++ [r0]) (decoded ++ [c]) s hs
          obtain ⟨produced, hp, _⟩ :=
            decodeLoop_results ext bits true rest (results ++ [r0]) (decoded ++ [c])
          refine ⟨h1, ?_, h3⟩
          intro hne
          have hempty := h3 rfl hne
          rw [hempty] at hp
          simp at hp

/-- The loop returns no status only when `value()` is taken of an absent point
of a candidate whose decode succeeded. -/
theorem decodeLoop_no_status (multiple : Bool) :
    ∀ (cands : List Points) (results : List ZXing.Result) (decoded : List Points),
      (decodeLoop ext bits multiple cands results decoded).status = none →
        ∃ c ∈ cands, StatusIsOK (decodeCandidate ext bits c).1 = true ∧
          makeResult ext.absent c (decodeCandidate ext bits c).2 = none := by
  intro cands
  induction cands with
  | nil =>
    intro results decoded hs
    rw [decodeLoop_nil] at hs
    simp at hs
  | cons c rest ih =>
    intro results decoded hs
    cases hok : StatusIsOK (decodeCandidate ext bits c).1 with
    | false =>
      cases multiple with
      | false =>
        rw [decodeLoop_cons_fail_single ext bits c rest results decoded hok] at hs
        simp at hs
      | true =>
        rw [decodeLoop_cons_fail_multi ext bits c rest results decoded hok] at hs
        obtain ⟨c1, hc1, hc2⟩ := ih results (decoded ++ [c]) hs
        exact ⟨c1, List.mem_cons_of_mem _ hc1, hc2⟩
    | true =>
      cases hres : makeResult ext.absent c (decodeCandidate ext bits c).2 with
      | none => exact ⟨c, List.mem_cons_self _ _, hok, hres⟩
      | some r0 =>
        cases multiple with
        | false =>
          rw [decodeLoop_cons_ok_single ext bits c rest results decoded r0 hok hres] at hs
          simp at hs
        | true =>
          rw [decodeLoop_cons_ok_multi ext bits c rest results decoded r0 hok hres] at hs
          obtain ⟨c1, hc1, hc2⟩ := ih (results ++ [r0]) (decoded ++ [c]) hs
          exact ⟨c1, List.mem_cons_of_mem _ hc1, hc2⟩

/-! ## The materialization of a successful decode -/

/-- Taking `value()` of every element of a list of present elements yields the
elements, in order. -/
theorem mapM_value_map_some {α : Type} (absent : Option α) (l : List α) :
    (l.map some).mapM (Nullable.value absent) = some l := by
  rw [← List.mapM'_eq_mapM]
  induction l with
  | nil => simp [List.mapM']
  | cons a l ih => simp [List.mapM', Nullable.value, ih]

/-- When `value()` fails on an absent element, taking `value()` of every
element of a list succeeds only if every element is present. -/
theorem mapM_value_none_eq_some {α : Type} (xs : List (Nullable α)) :
    ∀ l : List α, xs.mapM (Nullable.value none) = some l → xs = l.map some := by
  rw [← List.mapM'_eq_mapM]
  induction xs with
  | nil => intro l; cases l <;> simp [List.mapM']
  | cons x xs ih =>
    intro l
    cases x with
    | none => simp [List.mapM', Nullable.value]
    | some a =>
      cases hxs : List.mapM' (Nullable.value none) xs with
      | none => simp [List.mapM', Nullable.value, hxs]
      | some l2 =>
        have h2 : xs = l2.map some := ih l2 hxs
        intro h
        simp [List.mapM', Nullable.value, hxs] at h
        subst h
        simp [h2]

theorem eq_map_some_iff {α : Type} (xs : List (Nullable α)) :
    (∃ l : List α, xs = l.map some) ↔ ∀ q ∈ xs, q ≠ none := by
  induction xs with
  | nil => exact ⟨fun _ => by simp, fun _ => ⟨[], rfl⟩⟩
  | cons x xs ih =>
    constructor
    · rintro ⟨l, hl⟩ q hq
      rw [hl] at hq
      obtain ⟨a, _, ha⟩ := List.mem_map.mp hq
      rw [← ha]
      simp
    · intro h
      obtain ⟨l, hl⟩ := ih.mpr fun q hq => h q (List.mem_cons_of_mem _ hq)
      cases x with
      | none => exact absurd rfl (h none (List.mem_cons_self _ _))
      | some a => exact ⟨a :: l, by simp [hl]⟩

/-- On a candidate whose 8 points are present, `foundPoints` is these 8
points. -/
theorem foundPoints_of_toList (absent : Option ResultPoint) (p : Points)
    (found : List ResultPoint) (h : p.toList = found.map some) :
    foundPoints absent p = some found := by
  unfold foundPoints
  rw [h]
  exact mapM_value_map_some absent found

/-- The result built from a successful decode carries the found points. -/
theorem makeResult_eq_some (absent : Option ResultPoint) (p : Points)
    (decoderResult : DecoderResult) (r : ZXing.Result)
    (h : makeResult absent p decoderResult = some r) :
    foundPoints absent p = some r.resultPoints := by
  unfold makeResult at h
  cases hf : foundPoints absent p with
  | none => simp [hf] at h
  | some found =>
    cases hx : dynamic_pointer_cast decoderResult.extra <;>
      simp [hf, hx, ZXing.Result.decoded] at h <;> subst h <;> rfl

/-- A result is built from a successful decode whenever `foundPoints` yields
the points. -/
theorem makeResult_isSome (absent : Option ResultPoint) (p : Points)
    (decoderResult : DecoderResult) (found : List ResultPoint)
    (h : foundPoints absent p = some found) :
    ∃ r, makeResult absent p decoderResult = some r ∧ r.resultPoints = found := by
  unfold makeResult
  cases hx : dynamic_pointer_cast decoderResult.extra <;>
    simp [h, hx, ZXing.Result.decoded]

/-- A result is built from every successful decode of a candidate whose 8
points are present. -/
theorem makeResult_of_resolved (absent : Option ResultPoint) (p : Points)
    (decoderResult : DecoderResult) (h : p.resolved) :
    ∃ r, makeResult absent p decoderResult = some r ∧ r.resultPoints.map some = p.toList := by
  obtain ⟨found, hfound⟩ := (eq_map_some_iff p.toList).mpr h
  obtain ⟨r, hr, hpts⟩ :=
    makeResult_isSome absent p decoderResult found (foundPoints_of_toList absent p found hfound)
  exact ⟨r, hr, by rw [hpts, hfound]⟩

/-- When no result is built from a successful decode, a point of the candidate
is absent. -/
theorem not_resolved_of_makeResult_none (absent : Option ResultPoint) (p : Points)
    (decoderResult : DecoderResult) (h : makeResult absent p decoderResult = none) :
    ¬ p.resolved := by
  intro hres
  obtain ⟨r, hr, _⟩ := makeResult_of_resolved absent p decoderResult hres
  rw [h] at hr
  exact Option.noConfusion hr

/-- The cast yields an object exactly when the pointer holds an object of the
`DecoderResultExtra` kind. -/
theorem dynamic_pointer_cast_eq_some_iff (x : Option CustomData) (e : DecoderResultExtra) :
    dynamic_pointer_cast x = some e ↔ x = some (CustomData.decoderResultExtra e) := by
  cases x with
  | none => simp [dynamic_pointer_cast]
  | some d =>
    cases d with
    | decoderResultExtra e1 => simp [dynamic_pointer_cast]
    | other k => simp [dynamic_pointer_cast]

/-- The metadata of the result built from a successful decode: the
error-correction level of the decoder result, and the extra metadata when the
cast of the extra object yields one. -/
theorem makeResult_metadata (absent : Option ResultPoint) (p : Points)
    (decoderResult : DecoderResult) (r : ZXing.Result)
    (h : makeResult absent p decoderResult = some r) :
    r.metadata.get ResultMetadata.Key.ERROR_CORRECTION_LEVEL =
      some (ResultMetadata.Value.level decoderResult.ecLevel) ∧
    r.metadata.get ResultMetadata.Key.PDF417_EXTRA_METADATA =
      (dynamic_pointer_cast decoderResult.extra).map ResultMetadata.Value.custom := by
  unfold makeResult at h
  cases hf : foundPoints absent p with
  | none => simp [hf] at h
  | some found =>
    cases hx : dynamic_pointer_cast decoderResult.extra <;>
      simp [hf, hx, ZXing.Result.decoded] at h <;> subst h <;>
      simp [ResultMetadata.get, ResultMetadata.put]

/-- The anchors of a candidate whose 8 points are present are its 8 points. -/
theorem anchors_of_resolved (p : Points) (h : p.resolved) :
    p.toList = p.anchors.map some := by
  obtain ⟨l, hl⟩ := (eq_map_some_iff p.toList).mpr h
  have hanchors : p.anchors = l := by
    unfold Points.anchors
    rw [hl, List.filterMap_map]
    exact List.filterMap_some l
  rw [hanchors]
  exact hl

/-- From a candidate whose 8 points are present the materialization builds the
specification's aggregated result: the payload of the decoder with the 8 anchor
points of the candidate. -/
theorem makeResult_eq_aggregatedResult (absent : Option ResultPoint) (p : Points)
    (decoderResult : DecoderResult) (h : p.resolved) :
    makeResult absent p decoderResult = some (aggregatedResult p.anchors decoderResult) := by
  have hfound := foundPoints_of_toList absent p p.anchors (anchors_of_resolved p h)
  unfold makeResult
  rw [hfound]
  cases hx : decoderResult.extra with
  | none => simp [dynamic_pointer_cast, aggregatedResult, ZXing.Result.decoded,
      ResultMetadata.put, hx]
  | some d =>
    cases d with
    | decoderResultExtra e =>
      simp [dynamic_pointer_cast, aggregatedResult, ZXing.Result.decoded,
        ResultMetadata.put, hx]
    | other k =>
      simp [dynamic_pointer_cast, aggregatedResult, ZXing.Result.decoded,
        ResultMetadata.put, hx]

/-- When `value()` hands back a placeholder for an absent point, a result is
built from every successful decode. -/
theorem makeResult_of_placeholder (d : ResultPoint) (p : Points)
    (decoderResult : DecoderResult) :
    ∃ r, makeResult (some d) p decoderResult = some r := by
  have hlist : ∀ xs : List (Nullable ResultPoint),
      ∃ found, xs.mapM (Nullable.value (some d)) = some found := by
    intro xs
    rw [← List.mapM'_eq_mapM]
    induction xs with
    | nil => exact ⟨[], by simp [List.mapM']⟩
    | cons x xs ih =>
      obtain ⟨found, hfound⟩ := ih
      cases x with
      | none => exact ⟨d :: found, by simp [List.mapM', Nullable.value, hfound]⟩
      | some a => exact ⟨a :: found, by simp [List.mapM', Nullable.value, hfound]⟩
  obtain ⟨found, hfound⟩ := hlist p.toList
  obtain ⟨r, hr, _⟩ := makeResult_isSome (some d) p decoderResult found hfound
  exact ⟨r, hr⟩

/-- The loop in multi mode, when a result is built from every candidate whose
decode succeeded: every candidate is decoded, and the results of the succeeding
ones are appended in order. -/
theorem decodeLoop_multi_collect :
    ∀ (cands : List Points) (results : List ZXing.Result) (decoded : List Points),
      (∀ c ∈ cands, StatusIsOK (decodeCandidate ext bits c).1 = true →
        makeResult ext.absent c (decodeCandidate ext bits c).2 ≠ none) →
      decodeLoop ext bits true cands results decoded =
        { status := some (if (results ++ successResults ext bits cands).isEmpty
            then ErrorStatus.NotFound else ErrorStatus.NoError),
          results := results ++ successResults ext bits cands,
          decoded := decoded ++ cands } := by
  intro cands
  induction cands with
  | nil =>
    intro results decoded _
    simp [decodeLoop_nil, successResults]
  | cons c rest ih =>
    intro results decoded hres
    have hrest : ∀ c1 ∈ rest, StatusIsOK (decodeCandidate ext bits c1).1 = true →
        makeResult ext.absent c1 (decodeCandidate ext bits c1).2 ≠ none :=
      fun c1 hc1 => hres c1 (List.mem_cons_of_mem _ hc1)
    cases hok : StatusIsOK (decodeCandidate ext bits c).1 with
    | false =>
      rw [decodeLoop_cons_fail_multi ext bits c rest results decoded hok,
        ih results (decoded ++ [c]) hrest]
      simp [successResults, hok]
    | true =>
      obtain ⟨r0, hr0⟩ := Option.ne_none_iff_exists'.mp (hres c (List.mem_cons_self _ _) hok)
      rw [decodeLoop_cons_ok_multi ext bits c rest results decoded r0 hok hr0,
        ih (results ++ [r0]) (decoded ++ [c]) hrest]
      simp [successResults, hok, hr0]

/-- One result per candidate whose decode succeeded, when a result is built from
each of these candidates. -/
theorem successResults_length :
    ∀ cands : List Points,
      (∀ c ∈ cands, StatusIsOK (decodeCandidate ext bits c).1 = true →
        makeResult ext.absent c (decodeCandidate ext bits c).2 ≠ none) →
      (successResults ext bits cands).length =
        (cands.filter fun c => StatusIsOK (decodeCandidate ext bits c).1).length := by
  intro cands
  induction cands with
  | nil => intro _; simp [successResults]
  | cons c rest ih =>
    intro hres
    have hrest := ih fun c1 hc1 => hres c1 (List.mem_cons_of_mem _ hc1)
    unfold successResults at hrest ⊢
    cases hok : StatusIsOK (decodeCandidate ext bits c).1 with
    | false => simpa [hok] using hrest
    | true =>
      obtain ⟨r0, hr0⟩ := Option.ne_none_iff_exists'.mp (hres c (List.mem_cons_self _ _) hok)
      simpa [hok, hr0] using hrest

/-- The results the loop collects, when the candidates whose decode succeeded
have their 8 points present: the specification's aggregated results of these
candidates, in order. -/
theorem successResults_eq_map :
    ∀ cands : List Points,
      (∀ c ∈ cands, StatusIsOK (decodeCandidate ext bits c).1 = true → c.resolved) →
      successResults ext bits cands =
        ((cands.filter fun c => StatusIsOK (decodeCandidate ext bits c).1).map
          fun c => aggregatedResult c.anchors (decodeCandidate ext bits c).2) := by
  intro cands
  induction cands with
  | nil => intro _; simp [successResults]
  | cons c rest ih =>
    intro hres
    have hrest := ih fun c1 hc1 => hres c1 (List.mem_cons_of_mem _ hc1)
    unfold successResults at hrest ⊢
    cases hok : StatusIsOK (decodeCandidate ext bits c).1 with
    | false => simpa [hok] using hrest
    | true =>
      have hr0 := makeResult_eq_aggregatedResult ext.absent c (decodeCandidate ext bits c).2
        (hres c (List.mem_cons_self _ _) hok)
      simpa [hok, hr0] using hrest

/-- In multi mode the loop returns `NotFound` only if no candidate decoded. -/
theorem decodeLoop_multi_notFound :
    ∀ (cands : List Points) (results : List ZXing.Result) (decoded : List Points),
      (decodeLoop ext bits true cands results decoded).status = some ErrorStatus.NotFound →
        ∀ c ∈ cands, StatusIsOK (decodeCandidate ext bits c).1 = false := by
  intro cands
  induction cands with
  | nil => intro _ _ _ c hc; simp at hc
  | cons c rest ih =>
    intro results decoded hs
    cases hok : StatusIsOK (decodeCandidate ext bits c).1 with
    | false =>
      rw [decodeLoop_cons_fail_multi ext bits c rest results decoded hok] at hs
      intro c1 hc1
      rcases List.mem_cons.mp hc1 with h | h
      · rw [h]; exact hok
      · exact ih results (decoded ++ [c]) hs c1 h
    | true =>
      cases hres : makeResult ext.absent c (decodeCandidate ext bits c).2 with
      | none =>
        rw [decodeLoop_cons_ok_absent ext bits true c rest results decoded hok hres] at hs
        simp at hs
      | some r0 =>
        rw [decodeLoop_cons_ok_multi ext bits c rest results decoded r0 hok hres] at hs
        have hempty := (decodeLoop_status ext bits true rest (results ++ [r0])
          (decoded ++ [c]) ErrorStatus.NotFound hs).2.2 rfl (by decide)
        obtain ⟨produced, hp, _⟩ :=
          decodeLoop_results ext bits true rest (results ++ [r0]) (decoded ++ [c])
        rw [hempty] at hp
        simp at hp

/-- No result is collected when every decode fails. -/
theorem successResults_of_all_fail (cands : List Points)
    (h : ∀ c ∈ cands, StatusIsOK (decodeCandidate ext bits c).1 = false) :
    successResults ext bits cands = [] := by
  unfold successResults
  rw [List.filterMap_eq_nil_iff]
  intro c hc
  simp [h c hc]

/-- The run of `DoDecode` when the detector fails (lines 61-65). -/
theorem DoDecode_eq_of_detect_failure (image : BinaryBitmap) (hints : Option DecodeHints)
    (multiple : Bool) (results : List ZXing.Result)
    (hdetect : StatusIsError (ext.Detect image hints multiple).1 = true) :
    DoDecode ext image hints multiple results =
      { status := some (ext.Detect image hints multiple).1, results := results,
        decoded := [] } := by
  unfold DoDecode
  simp only [hdetect]
  rfl

/-- The run of `DoDecode` when the detector succeeds: the loop over its candidates. -/
theorem DoDecode_eq_decodeLoop (image : BinaryBitmap) (hints : Option DecodeHints)
    (multiple : Bool) (results : List ZXing.Result)
    (hdetect : StatusIsError (ext.Detect image hints multiple).1 = false) :
    DoDecode ext image hints multiple results =
      decodeLoop ext (ext.Detect image hints multiple).2.bits multiple
        (ext.Detect image hints multiple).2.points results [] := by
  unfold DoDecode
  simp only [hdetect]
  rfl

/-- The status `DoDecode` returns against the list it leaves, from an empty list. -/
theorem DoDecode_status_payload
    (image : BinaryBitmap)
    (hints : Option DecodeHints) (multiple : Bool) :
    (∀ s, (DoDecode ext image hints multiple []).status = some s →
      (s = ErrorStatus.NoError ↔ (DoDecode ext image hints multiple []).results ≠ []) ∧
      (s ≠ ErrorStatus.NoError → (DoDecode ext image hints multiple []).results = []) ∧
      (multiple = false → s = ErrorStatus.NoError →
        (DoDecode ext image hints multiple []).results.length = 1)) ∧
    ((DoDecode ext image hints multiple []).status = none →
      ext.absent = none ∧
      ∃ c ∈ (ext.Detect image hints multiple).2.points,
        StatusIsOK (decodeCandidate ext (ext.Detect image hints multiple).2.bits c).1 = true ∧
        ¬ c.resolved) := by
  cases hdetect : StatusIsError (ext.Detect image hints multiple).1 with
  | true =>
    rw [DoDecode_eq_of_detect_failure ext image hints multiple [] hdetect]
    have hne : (ext.Detect image hints multiple).1 ≠ ErrorStatus.NoError := by
      simpa [StatusIsError] using hdetect
    refine ⟨?_, by simp⟩
    intro s hs
    simp only [Option.some.injEq] at hs
    subst hs
    simp [hne]
  | false =>
    rw [DoDecode_eq_decodeLoop ext image hints multiple [] hdetect]
    obtain ⟨produced, hp, _, hsingle, _⟩ :=
      decodeLoop_results ext (ext.Detect image hints multiple).2.bits multiple
        (ext.Detect image hints multiple).2.points [] []
    constructor
    · intro s hs
      obtain ⟨h1, h2, _⟩ := decodeLoop_status ext _ multiple _ [] [] s hs
      refine ⟨⟨h1, ?_⟩, h2, ?_⟩
      · intro hne
        by_contra hs2
        exact hne (h2 hs2)
      · intro hm hs2
        have hle := hsingle hm
        have hpos := List.length_pos_of_ne_nil (h1 hs2)
        rw [hp] at hpos ⊢
        simp only [List.nil_append] at hpos ⊢
        omega
    · intro hs
      obtain ⟨c, hc, hok, hres⟩ := decodeLoop_no_status ext _ multiple _ [] [] hs
      refine ⟨?_, c, hc, hok, not_resolved_of_makeResult_none _ _ _ hres⟩
      cases hab : ext.absent with
      | none => rfl
      | some d =>
        rw [hab] at hres
        obtain ⟨r, hr⟩ := makeResult_of_placeholder d c
          (decodeCandidate ext (ext.Detect image hints multiple).2.bits c).2
        rw [hres] at hr
        exact Option.noConfusion hr

/-- The loop against its decoder calls: it decodes the candidates from the first
one on, up to the one it stops at, and appends at most one result per decoded
candidate. -/
theorem decodeLoop_decoded (multiple : Bool) :
    ∀ (cands : List Points) (results : List ZXing.Result) (decoded : List Points),
      ∃ (attempted skipped : List Points) (produced : List ZXing.Result),
        cands = attempted ++ skipped ∧
        (decodeLoop ext bits multiple cands results decoded).decoded = decoded ++ attempted ∧
        (decodeLoop ext bits multiple cands results decoded).results = results ++ produced ∧
        produced.length ≤ attempted.length := by
  intro cands
  induction cands with
  | nil =>
    intro results decoded
    exact ⟨[], [], [], rfl, by simp [decodeLoop_nil], by simp [decodeLoop_nil], by simp⟩
  | cons c rest ih =>
    intro results decoded
    cases hok : StatusIsOK (decodeCandidate ext bits c).1 with
    | false =>
      cases multiple with
      | false =>
        rw [decodeLoop_cons_fail_single ext bits c rest results decoded hok]
        exact ⟨[c], rest, [], rfl, rfl, by simp, by simp⟩
      | true =>
        rw [decodeLoop_cons_fail_multi ext bits c rest results decoded hok]
        obtain ⟨attempted, skipped, produced, h1, h2, h3, h4⟩ := ih results (decoded ++ [c])
        refine ⟨c :: attempted, skipped, produced, by simp [h1], by simp [h2], h3, ?_⟩
        simp only [List.length_cons]
        omega
    | true =>
      cases hres : makeResult ext.absent c (decodeCandidate ext bits c).2 with
      | none =>
        rw [decodeLoop_cons_ok_absent ext bits multiple c rest results decoded hok hres]
        exact ⟨[c], rest, [], rfl, rfl, by simp, by simp⟩
      | some r0 =>
        cases multiple with
        | false =>
          rw [decodeLoop_cons_ok_single ext bits c rest results decoded r0 hok hres]
          exact ⟨[c], rest, [r0], rfl, rfl, rfl, by simp⟩
        | true =>
          rw [decodeLoop_cons_ok_multi ext bits c rest results decoded r0 hok hres]
          obtain ⟨attempted, skipped, produced, h1, h2, h3, h4⟩ :=
            ih (results ++ [r0]) (decoded ++ [c])
          refine ⟨c :: attempted, skipped, r0 :: produced, by simp [h1], by simp [h2],
            by simp [h3], ?_⟩
          simp only [List.length_cons]
          omega

end Loop

section Claims

variable {BinaryBitmap DecodeHints BitMatrix : Type}

/-- C1. Single-result mode is first-failure-fatal: when `DoDecode` is called with
`multiple = false` and an empty result list, the detector succeeds and the first
candidate it returns fails to decode with status `s`, `DoDecode` returns exactly
`s` with an empty result list, whatever the later candidates are: the decoder is
invoked on the first candidate only. -/
theorem DoDecode_single_first_failure_fatal
    (ext : Externals BinaryBitmap DecodeHints BitMatrix) (image : BinaryBitmap)
    (hints : Option DecodeHints) (first : Points) (rest : List Points)
    (hdetect : StatusIsError (ext.Detect image hints false).1 = false)
    (hpoints : (ext.Detect image hints false).2.points = first :: rest)
    (hfail : StatusIsOK
      (decodeCandidate ext (ext.Detect image hints false).2.bits first).1 = false) :
    DoDecode ext image hints false [] =
      { status := some (decodeCandidate ext (ext.Detect image hints false).2.bits first).1,
        results := [], decoded := [first] } := by
  unfold DoDecode
  simp only [hdetect, hpoints]
  simpa using decodeLoop_cons_fail_single ext _ first rest [] [] hfail

/-- Witness of C1: the first candidate fails with `FormatError`, the second would
decode; single mode returns `FormatError`, no result, one decoder call. -/
theorem DoDecode_single_first_failure_fatal_witness :
    StatusIsOK (decodeCandidate Example.externals () Example.readable).1 = true ∧
    DoDecode Example.externals (Example.imageWith [Example.damaged, Example.readable])
      none false [] =
      { status := some ErrorStatus.FormatError, results := [],
        decoded := [Example.damaged] } :=
  ⟨by decide,
    DoDecode_single_first_failure_fatal Example.externals
      (Example.imageWith [Example.damaged, Example.readable]) none Example.damaged
      [Example.readable] (by decide) (by decide) (by decide)⟩

/-- C2, as stated, fails: the detector succeeds and the decoder succeeds on the
first candidate, whose points 0-3 are absent. When `value()` fails on an absent
point `DoDecode` returns no status and leaves the list empty; when `value()`
hands back the origin, the one result holds four placeholders, which are no
anchor points of the candidate. -/
theorem DoDecode_single_first_success_counterexample :
    StatusIsError (Example.externals.Detect
      (Example.imageWith [Example.regionOnly, Example.readable]) none false).1 = false ∧
    (Example.externals.Detect
      (Example.imageWith [Example.regionOnly, Example.readable]) none false).2.points =
      [Example.regionOnly, Example.readable] ∧
    StatusIsOK (decodeCandidate Example.externals () Example.regionOnly).1 = true ∧
    DoDecode Example.externals (Example.imageWith [Example.regionOnly, Example.readable])
      none false [] =
      { status := none, results := [], decoded := [Example.regionOnly] } ∧
    DoDecode Example.lenient (Example.imageWith [Example.regionOnly, Example.readable])
      none false [] =
      { status := some ErrorStatus.NoError, results := [Example.regionOnlyResult],
        decoded := [Example.regionOnly] } ∧
    Example.regionOnlyResult.resultPoints.map some ≠ Example.regionOnly.toList := by
  decide

/-- C2, amended. Single-result mode is first-success-wins: when `DoDecode` is
called with `multiple = false` and an empty result list, the detector succeeds
and the first candidate it returns has its 8 anchor points present and decodes
successfully, `DoDecode` returns `NoError` with a result list of exactly one
element, the aggregated result of the first candidate (the payload of its
decode with its 8 anchor points), and the decoder is invoked on no later
candidate. -/
theorem DoDecode_single_first_success_wins
    (ext : Externals BinaryBitmap DecodeHints BitMatrix) (image : BinaryBitmap)
    (hints : Option DecodeHints) (first : Points) (rest : List Points)
    (hdetect : StatusIsError (ext.Detect image hints false).1 = false)
    (hpoints : (ext.Detect image hints false).2.points = first :: rest)
    (hok : StatusIsOK
      (decodeCandidate ext (ext.Detect image hints false).2.bits first).1 = true)
    (hresolved : first.resolved) :
    DoDecode ext image hints false [] =
      { status := some ErrorStatus.NoError,
        results := [aggregatedResult first.anchors
          (decodeCandidate ext (ext.Detect image hints false).2.bits first).2],
        decoded := [first] } := by
  rw [DoDecode_eq_decodeLoop ext image hints false [] hdetect, hpoints]
  simpa using decodeLoop_cons_ok_single ext _ first rest [] [] _ hok
    (makeResult_eq_aggregatedResult ext.absent first _ hresolved)

/-- Witness of C2, amended: the first candidate has its 8 points present and
decodes, the second would fail; single mode returns `NoError` and the
aggregated result of the first candidate alone. -/
theorem DoDecode_single_first_success_wins_witness :
    StatusIsOK (decodeCandidate Example.externals () Example.damaged).1 = false ∧
    aggregatedResult Example.readable.anchors
      (decodeCandidate Example.externals () Example.readable).2 = Example.readableResult ∧
    DoDecode Example.externals (Example.imageWith [Example.readable, Example.damaged])
      none false [] =
      { status := some ErrorStatus.NoError, results := [Example.readableResult],
        decoded := [Example.readable] } :=
  ⟨by decide, by decide,
    DoDecode_single_first_success_wins Example.externals
      (Example.imageWith [Example.readable, Example.damaged]) none Example.readable
      [Example.damaged] (by decide) (by decide) (by decide) (by decide)⟩

/-- C3, as stated, fails: in multi mode the detector returns a candidate whose
points 0-3 are absent, then a readable one, and the decoder succeeds on both.
When `value()` fails on an absent point the loop ends at the first candidate:
the decoder is not invoked on the second, no status is returned and the list
stays empty. When `value()` hands back the origin, the first result holds four
placeholders, which are no anchor points of its candidate. -/
theorem DoDecode_multiple_collects_counterexample :
    StatusIsError (Example.externals.Detect
      (Example.imageWith [Example.regionOnly, Example.readable]) none true).1 = false ∧
    StatusIsOK (decodeCandidate Example.externals () Example.regionOnly).1 = true ∧
    StatusIsOK (decodeCandidate Example.externals () Example.readable).1 = true ∧
    DoDecode Example.externals (Example.imageWith [Example.regionOnly, Example.readable])
      none true [] =
      { status := none, results := [], decoded := [Example.regionOnly] } ∧
    DoDecode Example.lenient (Example.imageWith [Example.regionOnly, Example.readable])
      none true [] =
      { status := some ErrorStatus.NoError,
        results := [Example.regionOnlyResult, Example.readableResult],
        decoded := [Example.regionOnly, Example.readable] } ∧
    Example.regionOnlyResult.resultPoints.map some ≠ Example.regionOnly.toList := by
  decide

/-- C3, amended. Multi-result mode collects every success in order: when
`DoDecode` is called with `multiple = true` and an empty result list, the
detector succeeds and every candidate whose decode succeeds has its 8 anchor
points present, the decoder is invoked on every candidate, the final result
list is exactly the aggregated results (the payload of the decode with the 8
anchor points) of the candidates whose decode succeeded, one per such candidate
and in the order of the candidates, and the status is `NoError` whenever at
least one candidate succeeded. -/
theorem DoDecode_multiple_collects_successes
    (ext : Externals BinaryBitmap DecodeHints BitMatrix) (image : BinaryBitmap)
    (hints : Option DecodeHints)
    (hdetect : StatusIsError (ext.Detect image hints true).1 = false)
    (hresolved : ∀ c ∈ (ext.Detect image hints true).2.points,
      StatusIsOK (decodeCandidate ext (ext.Detect image hints true).2.bits c).1 = true →
        c.resolved) :
    (DoDecode ext image hints true []).decoded = (ext.Detect image hints true).2.points ∧
    (DoDecode ext image hints true []).results =
      (((ext.Detect image hints true).2.points.filter fun c =>
        StatusIsOK (decodeCandidate ext (ext.Detect image hints true).2.bits c).1).map
        fun c => aggregatedResult c.anchors
          (decodeCandidate ext (ext.Detect image hints true).2.bits c).2) ∧
    ((∃ c ∈ (ext.Detect image hints true).2.points,
        StatusIsOK (decodeCandidate ext (ext.Detect image hints true).2.bits c).1 = true) →
      (DoDecode ext image hints true []).status = some ErrorStatus.NoError) := by
  have hresult : ∀ c ∈ (ext.Detect image hints true).2.points,
      StatusIsOK (decodeCandidate ext (ext.Detect image hints true).2.bits c).1 = true →
        makeResult ext.absent c
          (decodeCandidate ext (ext.Detect image hints true).2.bits c).2 ≠ none := by
    intro c hc hok
    rw [makeResult_eq_aggregatedResult ext.absent c _ (hresolved c hc hok)]
    exact Option.some_ne_none _
  have hmap := successResults_eq_map ext (ext.Detect image hints true).2.bits
    (ext.Detect image hints true).2.points hresolved
  rw [DoDecode_eq_decodeLoop ext image hints true [] hdetect,
    decodeLoop_multi_collect ext _ _ [] [] hresult, hmap]
  refine ⟨by simp, by simp, ?_⟩
  rintro ⟨c, hc, hok⟩
  have hmem : c ∈ (ext.Detect image hints true).2.points.filter fun c =>
      StatusIsOK (decodeCandidate ext (ext.Detect image hints true).2.bits c).1 :=
    List.mem_filter.mpr ⟨hc, hok⟩
  have hne : ((ext.Detect image hints true).2.points.filter fun c =>
      StatusIsOK (decodeCandidate ext (ext.Detect image hints true).2.bits c).1) ≠ [] :=
    List.ne_nil_of_mem hmem
  simp [hne]

/-- Witness of C3, amended: the first candidate fails, the second has its 8
points present and decodes; multi mode attempts both and returns `NoError` with
the aggregated result of the second. -/
theorem DoDecode_multiple_collects_successes_witness :
    DoDecode Example.externals (Example.imageWith [Example.damaged, Example.readable])
      none true [] =
      { status := some ErrorStatus.NoError, results := [Example.readableResult],
        decoded := [Example.damaged, Example.readable] } ∧
    (DoDecode Example.externals (Example.imageWith [Example.damaged, Example.readable])
      none true []).results =
      (((Example.externals.Detect (Example.imageWith [Example.damaged, Example.readable])
        none true).2.points.filter fun c =>
          StatusIsOK (decodeCandidate Example.externals () c).1).map
        fun c => aggregatedResult c.anchors (decodeCandidate Example.externals () c).2) :=
  ⟨by decide,
    (DoDecode_multiple_collects_successes Example.externals
      (Example.imageWith [Example.damaged, Example.readable]) none (by decide)
      (by decide)).2.1⟩

/-- C4. Multi-result mode with every candidate failing: when `DoDecode` is called
with `multiple = true` and an empty result list and the detector succeeds, then
if every decode fails (with whatever statuses) `DoDecode` returns `NotFound`
with an empty result list, having attempted every candidate; and `DoDecode`
returns `NotFound` only if no candidate decoded. -/
theorem DoDecode_multiple_all_fail
    (ext : Externals BinaryBitmap DecodeHints BitMatrix) (image : BinaryBitmap)
    (hints : Option DecodeHints)
    (hdetect : StatusIsError (ext.Detect image hints true).1 = false) :
    ((∀ c ∈ (ext.Detect image hints true).2.points,
        StatusIsOK (decodeCandidate ext (ext.Detect image hints true).2.bits c).1 = false) →
      DoDecode ext image hints true [] =
        { status := some ErrorStatus.NotFound, results := [],
          decoded := (ext.Detect image hints true).2.points }) ∧
    ((DoDecode ext image hints true []).status = some ErrorStatus.NotFound →
      ∀ c ∈ (ext.Detect image hints true).2.points,
        StatusIsOK (decodeCandidate ext (ext.Detect image hints true).2.bits c).1 = false) := by
  have hrun : DoDecode ext image hints true [] =
      decodeLoop ext (ext.Detect image hints true).2.bits true
        (ext.Detect image hints true).2.points [] [] := by
    unfold DoDecode
    simp only [hdetect]
    rfl
  rw [hrun]
  constructor
  · intro hfail
    rw [decodeLoop_multi_collect ext _ _ [] []
      (fun c hc hok => by rw [hfail c hc] at hok; exact Bool.noConfusion hok),
      successResults_of_all_fail ext _ _ hfail]
    simp
  · exact decodeLoop_multi_notFound ext _ _ [] []

/-- Witness of C4: one candidate fails with `FormatError`, the other with
`ChecksumError`; multi mode returns `NotFound` and no result. -/
theorem DoDecode_multiple_all_fail_witness :
    (decodeCandidate Example.externals () Example.damaged).1 = ErrorStatus.FormatError ∧
    (decodeCandidate Example.externals () Example.corrupted).1 = ErrorStatus.ChecksumError ∧
    DoDecode Example.externals (Example.imageWith [Example.damaged, Example.corrupted])
      none true [] =
      { status := some ErrorStatus.NotFound, results := [],
        decoded := [Example.damaged, Example.corrupted] } :=
  ⟨by decide, by decide,
    (DoDecode_multiple_all_fail Example.externals
      (Example.imageWith [Example.damaged, Example.corrupted]) none (by decide)).1
      (by decide)⟩

/-- C5. Zero candidates: when the detector succeeds but returns no candidate and
the result list is initially empty, `DoDecode` returns `NotFound` with an empty
result list, in single and in multi mode alike. -/
theorem DoDecode_zero_candidates
    (ext : Externals BinaryBitmap DecodeHints BitMatrix) (image : BinaryBitmap)
    (hints : Option DecodeHints) (multiple : Bool)
    (hdetect : StatusIsError (ext.Detect image hints multiple).1 = false)
    (hpoints : (ext.Detect image hints multiple).2.points = []) :
    DoDecode ext image hints multiple [] =
      { status := some ErrorStatus.NotFound, results := [], decoded := [] } := by
  unfold DoDecode
  simp only [hdetect, hpoints]
  simp [decodeLoop_nil]

/-- Witness of C5: an image without candidates, in single and in multi mode. -/
theorem DoDecode_zero_candidates_witness :
    DoDecode Example.externals (Example.imageWith []) none false [] =
      { status := some ErrorStatus.NotFound, results := [], decoded := [] } ∧
    DoDecode Example.externals (Example.imageWith []) none true [] =
      { status := some ErrorStatus.NotFound, results := [], decoded := [] } :=
  ⟨DoDecode_zero_candidates Example.externals (Example.imageWith []) none false
      (by decide) (by decide),
    DoDecode_zero_candidates Example.externals (Example.imageWith []) none true
      (by decide) (by decide)⟩

/-- C6. Locator failure is always fatal: whenever `Detector::Detect` returns an
error status `s`, `DoDecode` returns exactly `s`, in single and in multi mode,
invokes the decoder on nothing and leaves the result list as it was, whatever
candidates the detector result contains. -/
theorem DoDecode_detect_failure
    (ext : Externals BinaryBitmap DecodeHints BitMatrix) (image : BinaryBitmap)
    (hints : Option DecodeHints) (multiple : Bool) (results : List ZXing.Result)
    (hdetect : StatusIsError (ext.Detect image hints multiple).1 = true) :
    DoDecode ext image hints multiple results =
      { status := some (ext.Detect image hints multiple).1, results := results,
        decoded := [] } := by
  unfold DoDecode
  simp only [hdetect]
  rfl

/-- Witness of C6: the detector fails with `FormatError` while its result holds
a candidate the decoder would read; `DoDecode` returns `FormatError`, in both
modes, without a decoder call. -/
theorem DoDecode_detect_failure_witness :
    DoDecode Example.externals
      (ErrorStatus.FormatError, { bits := (), points := [Example.readable] })
      none false [] =
      { status := some ErrorStatus.FormatError, results := [], decoded := [] } ∧
    DoDecode Example.externals
      (ErrorStatus.FormatError, { bits := (), points := [Example.readable] })
      none true [Example.readableResult] =
      { status := some ErrorStatus.FormatError, results := [Example.readableResult],
        decoded := [] } :=
  ⟨DoDecode_detect_failure Example.externals
      (ErrorStatus.FormatError, { bits := (), points := [Example.readable] })
      none false [] (by decide),
    DoDecode_detect_failure Example.externals
      (ErrorStatus.FormatError, { bits := (), points := [Example.readable] })
      none true [Example.readableResult] (by decide)⟩

/-- C7. Status and payload agree: for every call of `DoDecode` that starts with
an empty result list (either mode, any detector outcome, any decoder outcomes),
a returned status is `NoError` if and only if the result list is non-empty,
every other returned status comes with an empty list, and in single mode
`NoError` comes with exactly one result. A call returns no status only when
`value()` fails on an absent point of a candidate whose decode succeeded. -/
theorem DoDecode_status_agrees_with_results
    (ext : Externals BinaryBitmap DecodeHints BitMatrix) (image : BinaryBitmap)
    (hints : Option DecodeHints) (multiple : Bool) :
    (∀ s, (DoDecode ext image hints multiple []).status = some s →
      (s = ErrorStatus.NoError ↔ (DoDecode ext image hints multiple []).results ≠ []) ∧
      (s ≠ ErrorStatus.NoError → (DoDecode ext image hints multiple []).results = []) ∧
      (multiple = false → s = ErrorStatus.NoError →
        (DoDecode ext image hints multiple []).results.length = 1)) ∧
    ((DoDecode ext image hints multiple []).status = none →
      ext.absent = none ∧
      ∃ c ∈ (ext.Detect image hints multiple).2.points,
        StatusIsOK (decodeCandidate ext (ext.Detect image hints multiple).2.bits c).1 = true ∧
        ¬ c.resolved) :=
  DoDecode_status_payload ext image hints multiple

/-- C8, as stated, fails: the detector returns a candidate whose points 4-7 are
present and whose points 0-3 are absent, and the decoder succeeds on it. Not
all 8 points are present, and `DoDecode` takes `value()` of the absent points:
it returns no status when that access fails, and a result holding four
placeholders when `value()` hands back the origin. -/
theorem resolved_of_region_points_counterexample :
    Example.regionOnly ∈
      (Example.externals.Detect (Example.imageWith [Example.regionOnly]) none false).2.points ∧
    Example.regionOnly.p4 ≠ none ∧ Example.regionOnly.p5 ≠ none ∧
    Example.regionOnly.p6 ≠ none ∧ Example.regionOnly.p7 ≠ none ∧
    StatusIsOK (decodeCandidate Example.externals () Example.regionOnly).1 = true ∧
    Example.regionOnly.p0 = none ∧
    ¬ Example.regionOnly.resolved ∧
    DoDecode Example.externals (Example.imageWith [Example.regionOnly]) none false [] =
      { status := none, results := [], decoded := [Example.regionOnly] } ∧
    DoDecode Example.lenient (Example.imageWith [Example.regionOnly]) none false [] =
      { status := some ErrorStatus.NoError, results := [Example.regionOnlyResult],
        decoded := [Example.regionOnly] } := by
  decide

/-- C8, amended. The materialization in `DoDecode` yields a result carrying
exactly the 8 points of the candidate if and only if all 8 points (0-7, not
only 4-7) are present; and when every candidate whose decode succeeds has its 8
points present, `DoDecode` returns a status and each result it produces carries
the 8 present points of its candidate, in order. -/
theorem makeResult_points_iff_resolved
    (ext : Externals BinaryBitmap DecodeHints BitMatrix) (image : BinaryBitmap)
    (hints : Option DecodeHints) (multiple : Bool) :
    (∀ (c : Points) (decoderResult : DecoderResult),
      (∃ r, makeResult ext.absent c decoderResult = some r ∧
        r.resultPoints.map some = c.toList) ↔ c.resolved) ∧
    ((∀ c ∈ (ext.Detect image hints multiple).2.points,
        StatusIsOK (decodeCandidate ext (ext.Detect image hints multiple).2.bits c).1 = true →
          c.resolved) →
      (DoDecode ext image hints multiple []).status ≠ none ∧
      ∀ r ∈ (DoDecode ext image hints multiple []).results,
        ∃ c ∈ (ext.Detect image hints multiple).2.points,
          c.resolved ∧ r.resultPoints.map some = c.toList) := by
  constructor
  · intro c decoderResult
    constructor
    · rintro ⟨r, _, hpts⟩
      exact (eq_map_some_iff c.toList).mp ⟨r.resultPoints, hpts.symm⟩
    · exact makeResult_of_resolved ext.absent c decoderResult
  · intro hresolved
    cases hdetect : StatusIsError (ext.Detect image hints multiple).1 with
    | true =>
      rw [DoDecode_eq_of_detect_failure ext image hints multiple [] hdetect]
      simp
    | false =>
      rw [DoDecode_eq_decodeLoop ext image hints multiple [] hdetect]
      constructor
      · intro hs
        obtain ⟨c, hc, hok, hres⟩ := decodeLoop_no_status ext _ multiple _ [] [] hs
        exact not_resolved_of_makeResult_none _ _ _ hres (hresolved c hc hok)
      · obtain ⟨produced, hp, _, _, hall⟩ :=
          decodeLoop_results ext (ext.Detect image hints multiple).2.bits multiple
            (ext.Detect image hints multiple).2.points [] []
        rw [hp]
        intro r hr
        obtain ⟨c, hc, hok, hres⟩ := hall r (by simpa using hr)
        obtain ⟨r1, hr1, hpts⟩ := makeResult_of_resolved ext.absent c
          (decodeCandidate ext (ext.Detect image hints multiple).2.bits c).2
          (hresolved c hc hok)
        rw [hres] at hr1
        have hrr : r = r1 := Option.some.inj hr1
        subst hrr
        exact ⟨c, hc, hresolved c hc hok, hpts⟩

/-- C9. Metadata attachment: every result `r` that `DoDecode` produces is built
from a candidate whose decode succeeded, and with the decoder result of that
candidate: `r` has an `ERROR_CORRECTION_LEVEL` entry equal to the `ecLevel` of
the decoder result; it has a `PDF417_EXTRA_METADATA` entry if and only if the
extra object of the decoder result is present and of the `DecoderResultExtra`
kind, and the entry is then that object; with no extra object there is no such
entry. -/
theorem DoDecode_metadata
    (ext : Externals BinaryBitmap DecodeHints BitMatrix) (image : BinaryBitmap)
    (hints : Option DecodeHints) (multiple : Bool) (r : ZXing.Result)
    (hr : r ∈ (DoDecode ext image hints multiple []).results) :
    ∃ c ∈ (ext.Detect image hints multiple).2.points,
      StatusIsOK (decodeCandidate ext (ext.Detect image hints multiple).2.bits c).1 = true ∧
      makeResult ext.absent c
        (decodeCandidate ext (ext.Detect image hints multiple).2.bits c).2 = some r ∧
      r.metadata.get ResultMetadata.Key.ERROR_CORRECTION_LEVEL =
        some (ResultMetadata.Value.level
          (decodeCandidate ext (ext.Detect image hints multiple).2.bits c).2.ecLevel) ∧
      ((r.metadata.get ResultMetadata.Key.PDF417_EXTRA_METADATA ≠ none) ↔
        ∃ e, (decodeCandidate ext (ext.Detect image hints multiple).2.bits c).2.extra =
          some (CustomData.decoderResultExtra e)) ∧
      (∀ e, (decodeCandidate ext (ext.Detect image hints multiple).2.bits c).2.extra =
          some (CustomData.decoderResultExtra e) →
        r.metadata.get ResultMetadata.Key.PDF417_EXTRA_METADATA =
          some (ResultMetadata.Value.custom e)) ∧
      ((decodeCandidate ext (ext.Detect image hints multiple).2.bits c).2.extra = none →
        r.metadata.get ResultMetadata.Key.PDF417_EXTRA_METADATA = none) := by
  cases hdetect : StatusIsError (ext.Detect image hints multiple).1 with
  | true =>
    rw [DoDecode_eq_of_detect_failure ext image hints multiple [] hdetect] at hr
    simp at hr
  | false =>
    rw [DoDecode_eq_decodeLoop ext image hints multiple [] hdetect] at hr
    obtain ⟨produced, hp, _, _, hall⟩ :=
      decodeLoop_results ext (ext.Detect image hints multiple).2.bits multiple
        (ext.Detect image hints multiple).2.points [] []
    rw [hp] at hr
    obtain ⟨c, hc, hok, hres⟩ := hall r (by simpa using hr)
    obtain ⟨hlevel, hextra⟩ := makeResult_metadata _ _ _ _ hres
    refine ⟨c, hc, hok, hres, hlevel, ?_, ?_, ?_⟩
    · rw [hextra]
      constructor
      · intro hne
        cases hx : dynamic_pointer_cast
            (decodeCandidate ext (ext.Detect image hints multiple).2.bits c).2.extra with
        | none => simp [hx] at hne
        | some e => exact ⟨e, (dynamic_pointer_cast_eq_some_iff _ e).mp hx⟩
      · rintro ⟨e, he⟩
        rw [(dynamic_pointer_cast_eq_some_iff _ e).mpr he]
        simp
    · intro e he
      rw [hextra, (dynamic_pointer_cast_eq_some_iff _ e).mpr he]
      rfl
    · intro he
      rw [hextra, he]
      rfl

/-- Witness of C9: a decode with PDF417 extra metadata, then one with an extra
object of another kind, then one with no extra object. The first result has
both entries, the other two the error-correction level only. -/
theorem DoDecode_metadata_witness :
    (DoDecode Example.externals
      (Example.imageWith [Example.withExtra, Example.withOther, Example.readable])
      none true []).results.map (fun r => r.metadata) =
      [[(ResultMetadata.Key.ERROR_CORRECTION_LEVEL, ResultMetadata.Value.level "2"),
        (ResultMetadata.Key.PDF417_EXTRA_METADATA,
          ResultMetadata.Value.custom Example.macroBlock)],
       [(ResultMetadata.Key.ERROR_CORRECTION_LEVEL, ResultMetadata.Value.level "2")],
       [(ResultMetadata.Key.ERROR_CORRECTION_LEVEL, ResultMetadata.Value.level "2")]] ∧
    ∃ c ∈ (Example.externals.Detect
        (Example.imageWith [Example.withExtra, Example.withOther, Example.readable])
        none true).2.points,
      Example.withExtraResult.metadata.get ResultMetadata.Key.ERROR_CORRECTION_LEVEL =
        some (ResultMetadata.Value.level (decodeCandidate Example.externals () c).2.ecLevel) :=
  ⟨by decide,
    (DoDecode_metadata Example.externals
      (Example.imageWith [Example.withExtra, Example.withOther, Example.readable])
      none true Example.withExtraResult (by decide)).imp
        fun _ h => ⟨h.1, h.2.2.2.1⟩⟩

/-- The value of `Reader::decode` by cases on the detector and on the decode of
the first candidate, and against `DoDecode` in single mode. -/
theorem Reader_decode_cases
    (ext : Externals BinaryBitmap DecodeHints BitMatrix) (image : BinaryBitmap)
    (hints : Option DecodeHints) :
    Reader.decode ext image hints =
      (if StatusIsError (ext.Detect image hints false).1 then
        some (ZXing.Result.ofStatus (ext.Detect image hints false).1)
      else
        match (ext.Detect image hints false).2.points with
        | [] => some (ZXing.Result.ofStatus ErrorStatus.NotFound)
        | first :: _ =>
          if StatusIsOK
              (decodeCandidate ext (ext.Detect image hints false).2.bits first).1 then
            makeResult ext.absent first
              (decodeCandidate ext (ext.Detect image hints false).2.bits first).2
          else
            some (ZXing.Result.ofStatus
              (decodeCandidate ext (ext.Detect image hints false).2.bits first).1)) ∧
    ((DoDecode ext image hints false []).status = some ErrorStatus.NoError →
      ∃ r, (DoDecode ext image hints false []).results = [r] ∧
        Reader.decode ext image hints = some r) ∧
    (∀ s, s ≠ ErrorStatus.NoError → (DoDecode ext image hints false []).status = some s →
      (DoDecode ext image hints false []).results = [] ∧
      Reader.decode ext image hints = some (ZXing.Result.ofStatus s)) := by
  refine ⟨?_, ?_, ?_⟩
  · unfold Reader.decode
    cases hdetect : StatusIsError (ext.Detect image hints false).1 with
    | true =>
      have hne : (ext.Detect image hints false).1 ≠ ErrorStatus.NoError := by
        simpa [StatusIsError] using hdetect
      rw [DoDecode_eq_of_detect_failure ext image hints false [] hdetect]
      simp [StatusIsOK, hne]
    | false =>
      rw [DoDecode_eq_decodeLoop ext image hints false [] hdetect]
      cases hpoints : (ext.Detect image hints false).2.points with
      | nil => simp [decodeLoop_nil, StatusIsOK]
      | cons first rest =>
        cases hok : StatusIsOK
            (decodeCandidate ext (ext.Detect image hints false).2.bits first).1 with
        | false =>
          rw [decodeLoop_cons_fail_single ext _ first rest [] [] hok]
          simp [hok]
        | true =>
          cases hres : makeResult ext.absent first
              (decodeCandidate ext (ext.Detect image hints false).2.bits first).2 with
          | none =>
            rw [decodeLoop_cons_ok_absent ext _ false first rest [] [] hok hres]
            simp [hok, hres]
          | some r =>
            rw [decodeLoop_cons_ok_single ext _ first rest [] [] r hok hres]
            simp [hok, hres, show StatusIsOK ErrorStatus.NoError = true from rfl]
  · intro hs
    obtain ⟨_, _, hone⟩ :=
      (DoDecode_status_payload ext image hints false).1 ErrorStatus.NoError hs
    obtain ⟨r, hr⟩ := List.length_eq_one.mp (hone rfl rfl)
    refine ⟨r, hr, ?_⟩
    unfold Reader.decode
    simp [hs, hr, StatusIsOK]
  · intro s hne hs
    obtain ⟨_, hempty, _⟩ := (DoDecode_status_payload ext image hints false).1 s hs
    refine ⟨hempty hne, ?_⟩
    unfold Reader.decode
    simp [hs, StatusIsOK, hne]

/-- C10, as stated, fails: the detector succeeds and the decoder succeeds on the
first candidate, whose points 0-3 are absent. When `value()` fails on an absent
point `Reader::decode` returns no `Result`; when `value()` hands back the
origin, the `Result` holds four placeholders, which are no anchor points of the
candidate. -/
theorem Reader_decode_counterexample :
    StatusIsError (Example.externals.Detect
      (Example.imageWith [Example.regionOnly, Example.readable]) none false).1 = false ∧
    StatusIsOK (decodeCandidate Example.externals () Example.regionOnly).1 = true ∧
    Reader.decode Example.externals
      (Example.imageWith [Example.regionOnly, Example.readable]) none = none ∧
    Reader.decode Example.lenient
      (Example.imageWith [Example.regionOnly, Example.readable]) none =
      some Example.regionOnlyResult ∧
    Example.regionOnlyResult.resultPoints.map some ≠ Example.regionOnly.toList := by
  decide

/-- C10, amended. Single-result wrapper: `Reader::decode` returns a status-only
`Result` with no payload carrying the detector's status if the detector failed,
`NotFound` if the detector returned no candidate, the first candidate's decoder
status if that decode failed, and the aggregated result of the first candidate
(the payload of its decode with its 8 anchor points) if that decode succeeded
and the candidate has its 8 anchor points present. It decides nothing beyond
`DoDecode` with `multiple = false`: on `NoError` it returns the only result of
the list, on any other status `s` the status-only `Result` of `s`. -/
theorem Reader_decode_eq
    (ext : Externals BinaryBitmap DecodeHints BitMatrix) (image : BinaryBitmap)
    (hints : Option DecodeHints) :
    (StatusIsError (ext.Detect image hints false).1 = true →
      Reader.decode ext image hints =
        some (ZXing.Result.ofStatus (ext.Detect image hints false).1)) ∧
    (StatusIsError (ext.Detect image hints false).1 = false →
      (ext.Detect image hints false).2.points = [] →
      Reader.decode ext image hints = some (ZXing.Result.ofStatus ErrorStatus.NotFound)) ∧
    (∀ (first : Points) (rest : List Points),
      StatusIsError (ext.Detect image hints false).1 = false →
      (ext.Detect image hints false).2.points = first :: rest →
      StatusIsOK (decodeCandidate ext (ext.Detect image hints false).2.bits first).1 = false →
      Reader.decode ext image hints =
        some (ZXing.Result.ofStatus
          (decodeCandidate ext (ext.Detect image hints false).2.bits first).1)) ∧
    (∀ (first : Points) (rest : List Points),
      StatusIsError (ext.Detect image hints false).1 = false →
      (ext.Detect image hints false).2.points = first :: rest →
      StatusIsOK (decodeCandidate ext (ext.Detect image hints false).2.bits first).1 = true →
      first.resolved →
      Reader.decode ext image hints =
        some (aggregatedResult first.anchors
          (decodeCandidate ext (ext.Detect image hints false).2.bits first).2)) ∧
    ((DoDecode ext image hints false []).status = some ErrorStatus.NoError →
      ∃ r, (DoDecode ext image hints false []).results = [r] ∧
        Reader.decode ext image hints = some r) ∧
    (∀ s, s ≠ ErrorStatus.NoError → (DoDecode ext image hints false []).status = some s →
      (DoDecode ext image hints false []).results = [] ∧
      Reader.decode ext image hints = some (ZXing.Result.ofStatus s)) := by
  obtain ⟨hcases, hok, herr⟩ := Reader_decode_cases ext image hints
  refine ⟨?_, ?_, ?_, ?_, hok, herr⟩
  · intro hdetect
    rw [hcases, if_pos hdetect]
  · intro hdetect hpoints
    rw [hcases, hpoints]
    simp [hdetect]
  · intro first rest hdetect hpoints hfail
    rw [hcases, hpoints]
    simp [hdetect, hfail]
  · intro first rest hdetect hpoints hsucc hresolved
    rw [hcases, hpoints]
    simp [hdetect, hsucc, makeResult_eq_aggregatedResult ext.absent first _ hresolved]

/-- Evaluation of `Reader::decode` on four images: a readable first candidate, a
damaged first candidate followed by a readable one, no candidate, and a failed
detection. -/
theorem Reader_decode_eq_witness :
    Reader.decode Example.externals
      (Example.imageWith [Example.readable, Example.damaged]) none =
      some Example.readableResult ∧
    Reader.decode Example.externals
      (Example.imageWith [Example.damaged, Example.readable]) none =
      some (ZXing.Result.ofStatus ErrorStatus.FormatError) ∧
    Reader.decode Example.externals (Example.imageWith []) none =
      some (ZXing.Result.ofStatus ErrorStatus.NotFound) ∧
    Reader.decode Example.externals
      (ErrorStatus.ChecksumError, { bits := (), points := [Example.readable] }) none =
      some (ZXing.Result.ofStatus ErrorStatus.ChecksumError) :=
  ⟨((Reader_decode_eq Example.externals
      (Example.imageWith [Example.readable, Example.damaged]) none).2.2.2.1
      Example.readable [Example.damaged] (by decide) (by decide) (by decide)
      (by decide)).trans (by decide),
    (Reader_decode_eq Example.externals
      (Example.imageWith [Example.damaged, Example.readable]) none).2.2.1
      Example.damaged [Example.readable] (by decide) (by decide) (by decide),
    (Reader_decode_eq Example.externals (Example.imageWith []) none).2.1
      (by decide) (by decide),
    (Reader_decode_eq Example.externals
      (ErrorStatus.ChecksumError, { bits := (), points := [Example.readable] })
      none).1 (by decide)⟩

/-- C19. The function `DoDecode` is append-only on its output list: for every
initial content `L` of the list and every behaviour of the detector and decoder,
in either mode, the list after the call is `L` followed by the appended
entries, so that the entries of `L` are kept, in order and unmodified; at most
one entry is appended per candidate on which the decoder was invoked, hence at
most one per candidate of the detector, and at most one in total when
`multiple = false`. -/
theorem DoDecode_append_only
    (ext : Externals BinaryBitmap DecodeHints BitMatrix) (image : BinaryBitmap)
    (hints : Option DecodeHints) (multiple : Bool) (L : List ZXing.Result) :
    ∃ produced : List ZXing.Result,
      (DoDecode ext image hints multiple L).results = L ++ produced ∧
      produced.length ≤ (DoDecode ext image hints multiple L).decoded.length ∧
      produced.length ≤ (ext.Detect image hints multiple).2.points.length ∧
      (multiple = false → produced.length ≤ 1) := by
  cases hdetect : StatusIsError (ext.Detect image hints multiple).1 with
  | true =>
    rw [DoDecode_eq_of_detect_failure ext image hints multiple L hdetect]
    exact ⟨[], by simp, by simp, by simp, by simp⟩
  | false =>
    rw [DoDecode_eq_decodeLoop ext image hints multiple L hdetect]
    obtain ⟨attempted, skipped, produced, h1, h2, h3, h4⟩ :=
      decodeLoop_decoded ext (ext.Detect image hints multiple).2.bits multiple
        (ext.Detect image hints multiple).2.points L []
    obtain ⟨produced1, g1, g2, g3, _⟩ :=
      decodeLoop_results ext (ext.Detect image hints multiple).2.bits multiple
        (ext.Detect image hints multiple).2.points L []
    have hsame : produced1 = produced := List.append_cancel_left (g1.symm.trans h3)
    subst hsame
    refine ⟨produced1, g1, ?_, g2, g3⟩
    rw [h2]
    simpa using h4

/-- Evaluation of C19: from a list holding one earlier result, multi mode on
a damaged, a readable and a corrupted candidate appends one result after it;
single mode on a damaged candidate appends nothing. -/
theorem DoDecode_append_only_witness :
    (DoDecode Example.externals
      (Example.imageWith [Example.damaged, Example.readable, Example.corrupted])
      none true [Example.withExtraResult]).results =
      [Example.withExtraResult] ++ [Example.readableResult] ∧
    (DoDecode Example.externals (Example.imageWith [Example.damaged, Example.readable])
      none false [Example.withExtraResult]).results = [Example.withExtraResult] ++ [] ∧
    ∃ produced : List ZXing.Result,
      (DoDecode Example.externals
        (Example.imageWith [Example.damaged, Example.readable, Example.corrupted])
        none true [Example.withExtraResult]).results =
        [Example.withExtraResult] ++ produced ∧ produced.length ≤ 3 :=
  ⟨by decide, by decide,
    (DoDecode_append_only Example.externals
      (Example.imageWith [Example.damaged, Example.readable, Example.corrupted])
      none true [Example.withExtraResult]).imp fun _ h => ⟨h.1, h.2.2.1⟩⟩

end Claims

/-! ## Facts about 32-bit `int` arithmetic -/

section Scale

/-- An integer in the range of `int` wraps to itself. -/
theorem wrapInt_of_range (n : Int) (h1 : -2 ^ 31 ≤ n) (h2 : n < 2 ^ 31) : wrapInt n = n := by
  unfold wrapInt
  omega

/-- Every wrapped integer is in the range of `int`. -/
theorem wrapInt_range (n : Int) : -2 ^ 31 ≤ wrapInt n ∧ wrapInt n < 2 ^ 31 := by
  unfold wrapInt
  omega

/-- Division by 18 with truncation toward zero, in terms of the floor
division. -/
theorem tdiv_eighteen (v : Int) :
    v.tdiv 18 = if 0 ≤ v then v / 18 else -((-v) / 18) := by
  split
  · next h => exact Int.tdiv_eq_ediv h (by decide)
  · next h =>
    have hneg : 0 ≤ -v := by omega
    have h1 : (-v).tdiv 18 = (-v) / 18 := Int.tdiv_eq_ediv hneg (by decide)
    rw [Int.neg_tdiv] at h1
    omega

/-- The rescaling `w * MODULES_IN_CODEWORD / MODULES_IN_STOP_PATTERN` of the
source, in `int` arithmetic. -/
theorem rescale_eq (w : Int) :
    (wrapInt (w * Common.MODULES_IN_CODEWORD)).tdiv Common.MODULES_IN_STOP_PATTERN =
      if 0 ≤ wrapInt (w * 17) then wrapInt (w * 17) / 18
      else -((-wrapInt (w * 17)) / 18) := by
  show (wrapInt (w * 17)).tdiv 18 = _
  exact tdiv_eighteen _

/-- A width without overflow rescales to `w * 17 / 18`, which is between 0 and
`w`. -/
theorem rescale_of_small (w : Int) (h0 : 0 ≤ w) (h1 : w * 17 < 2 ^ 31) :
    (wrapInt (w * Common.MODULES_IN_CODEWORD)).tdiv Common.MODULES_IN_STOP_PATTERN =
      w * 17 / 18 ∧ 0 ≤ w * 17 / 18 ∧ w * 17 / 18 ≤ w := by
  rw [rescale_eq, wrapInt_of_range (w * 17) (by omega) h1]
  refine ⟨?_, by omega, by omega⟩
  rw [if_pos (by omega)]

/-- A non-negative `int` width never grows under the rescaling, overflow
included. -/
theorem rescale_le_of_nonneg (w : Int) (h0 : 0 ≤ w) (h1 : w < 2 ^ 31) :
    (wrapInt (w * Common.MODULES_IN_CODEWORD)).tdiv Common.MODULES_IN_STOP_PATTERN ≤ w := by
  rw [rescale_eq]
  have hr := wrapInt_range (w * 17)
  by_cases hsmall : w * 17 < 2 ^ 31
  · rw [wrapInt_of_range (w * 17) (by omega) hsmall]
    split <;> omega
  · split <;> omega

/-- The rescaled sentinel of the minimum width. -/
theorem rescale_INT_MAX :
    (wrapInt (INT_MAX * Common.MODULES_IN_CODEWORD)).tdiv Common.MODULES_IN_STOP_PATTERN =
      119304646 := by
  decide

/-- The rescaled sentinel of the maximum width. -/
theorem rescale_zero :
    (wrapInt (0 * Common.MODULES_IN_CODEWORD)).tdiv Common.MODULES_IN_STOP_PATTERN = 0 := by
  decide

/-- The width of a pairing with an absent point: the sentinel `INT_MAX` for the
minimum, `0` for the maximum. -/
theorem GetWidth_of_not_resolved (a b : Nullable ResultPoint) (h : ¬ pairResolved a b) :
    GetMinWidth a b = INT_MAX ∧ GetMaxWidth a b = 0 := by
  cases a with
  | none => cases b <;> exact ⟨rfl, rfl⟩
  | some a =>
    cases b with
    | none => exact ⟨rfl, rfl⟩
    | some b => exact absurd ⟨by simp, by simp⟩ h

/-- On a fully resolved pairing both width functions return the same value. -/
theorem GetMinWidth_eq_GetMaxWidth (a b : Nullable ResultPoint) (h : pairResolved a b) :
    GetMinWidth a b = GetMaxWidth a b := by
  cases a with
  | none => exact absurd rfl h.1
  | some a =>
    cases b with
    | none => exact absurd rfl h.2
    | some b => rfl

/-- The candidates of the minimum when a pairing has an absent point. -/
theorem minCandidates_of_not_resolved (a b : Nullable ResultPoint) (h : a = none ∨ b = none) :
    GetMinWidth a b = INT_MAX ∧
    (wrapInt (GetMinWidth a b * Common.MODULES_IN_CODEWORD)).tdiv
      Common.MODULES_IN_STOP_PATTERN = 119304646 := by
  have hw := (GetWidth_of_not_resolved a b (fun hr => h.elim hr.1 hr.2)).1
  rw [hw]
  exact ⟨rfl, rescale_INT_MAX⟩

/-- The candidates of the maximum when a pairing has an absent point. -/
theorem maxCandidates_of_not_resolved (a b : Nullable ResultPoint) (h : a = none ∨ b = none) :
    GetMaxWidth a b = 0 ∧
    (wrapInt (GetMaxWidth a b * Common.MODULES_IN_CODEWORD)).tdiv
      Common.MODULES_IN_STOP_PATTERN = 0 := by
  have hw := (GetWidth_of_not_resolved a b (fun hr => h.elim hr.1 hr.2)).2
  rw [hw]
  exact ⟨rfl, rescale_zero⟩

/-- A non-negative rational below 1 truncates to 0. -/
theorem truncate_eq_zero (q : ℚ) (h0 : 0 ≤ q) (h1 : q < 1) : truncate q = 0 := by
  unfold truncate
  have hnum : 0 ≤ q.num := Rat.num_nonneg.mpr h0
  have hlt : q.num < q.den := Rat.lt_one_iff_num_lt_denom.mp h1
  rw [Int.tdiv_eq_ediv hnum (by exact_mod_cast Nat.zero_le _)]
  exact Int.ediv_eq_zero_of_lt hnum hlt

/-- The conversion to `int` of a coordinate whose truncation fits an `int`. -/
theorem toInt_of_range (x : ℚ) (h1 : -2 ^ 31 ≤ truncate x) (h2 : truncate x < 2 ^ 31) :
    toInt x = truncate x :=
  wrapInt_of_range _ h1 h2

/-- The width of two present points whose truncated x-coordinates and their
distance fit an `int`: the distance of the truncated x-coordinates, from both
width functions. -/
theorem GetWidth_of_int_range (a b : ResultPoint)
    (ha1 : -2 ^ 31 ≤ truncate a.x) (ha2 : truncate a.x < 2 ^ 31)
    (hb1 : -2 ^ 31 ≤ truncate b.x) (hb2 : truncate b.x < 2 ^ 31)
    (hd : pairDistance a b < 2 ^ 31) :
    GetMinWidth (some a) (some b) = pairDistance a b ∧
    GetMaxWidth (some a) (some b) = pairDistance a b := by
  have hvalue : wrapInt |wrapInt (toInt a.x - toInt b.x)| = pairDistance a b := by
    unfold pairDistance at hd ⊢
    rw [toInt_of_range _ ha1 ha2, toInt_of_range _ hb1 hb2]
    have hlt := abs_lt.mp hd
    rw [wrapInt_of_range (truncate a.x - truncate b.x) (by omega) (by omega)]
    exact wrapInt_of_range _ (by have := abs_nonneg (truncate a.x - truncate b.x); omega) hd
  exact ⟨hvalue, hvalue⟩

/-- The distance of two points of the pixel range is between 0 and 2^26. -/
theorem pairDistance_of_pixel_range (a b : ResultPoint)
    (ha : inPixelRange (some a)) (hb : inPixelRange (some b)) :
    0 ≤ pairDistance a b ∧ pairDistance a b ≤ 2 ^ 26 := by
  unfold inPixelRange at ha hb
  unfold pairDistance
  refine ⟨abs_nonneg _, abs_le.mpr ⟨by omega, by omega⟩⟩

/-- A direct pairing in the pixel range: either it is fully resolved and both
width functions return its distance, or it has an absent point and the width
functions return their sentinels. -/
theorem direct_pairing_cases (a b : Nullable ResultPoint)
    (ha : inPixelRange a) (hb : inPixelRange b) :
    (pairResolved a b ∧ ∃ w, directCandidate a b = [w] ∧ GetMinWidth a b = w ∧
      GetMaxWidth a b = w ∧ 0 ≤ w ∧ w ≤ 2 ^ 26) ∨
    (¬ pairResolved a b ∧ directCandidate a b = [] ∧ GetMinWidth a b = 2147483647 ∧
      GetMaxWidth a b = 0) := by
  by_cases hr : pairResolved a b
  · left
    refine ⟨hr, ?_⟩
    cases a with
    | none => exact absurd rfl hr.1
    | some a =>
      cases b with
      | none => exact absurd rfl hr.2
      | some b =>
        obtain ⟨h0, h26⟩ := pairDistance_of_pixel_range a b ha hb
        unfold inPixelRange at ha hb
        obtain ⟨hmin, hmax⟩ := GetWidth_of_int_range a b (by omega) (by omega) (by omega)
          (by omega) (by omega)
        exact ⟨pairDistance a b, rfl, hmin, hmax, h0, h26⟩
  · right
    obtain ⟨hmin, hmax⟩ := GetWidth_of_not_resolved a b hr
    refine ⟨hr, ?_, hmin, hmax⟩
    cases a with
    | none => cases b <;> rfl
    | some a =>
      cases b with
      | none => rfl
      | some b => exact absurd ⟨by simp, by simp⟩ hr

/-- A stop-pattern pairing in the pixel range: either it is fully resolved and
both rescaled widths are its distance times 17 divided by 18, or it has an
absent point and the rescaled widths are the rescaled sentinels. -/
theorem stop_pairing_cases (a b : Nullable ResultPoint)
    (ha : inPixelRange a) (hb : inPixelRange b) :
    (pairResolved a b ∧ ∃ w, stopCandidate a b = [w] ∧
      (wrapInt (GetMinWidth a b * Common.MODULES_IN_CODEWORD)).tdiv
        Common.MODULES_IN_STOP_PATTERN = w ∧
      (wrapInt (GetMaxWidth a b * Common.MODULES_IN_CODEWORD)).tdiv
        Common.MODULES_IN_STOP_PATTERN = w ∧ 0 ≤ w ∧ w ≤ 2 ^ 26) ∨
    (¬ pairResolved a b ∧ stopCandidate a b = [] ∧
      (wrapInt (GetMinWidth a b * Common.MODULES_IN_CODEWORD)).tdiv
        Common.MODULES_IN_STOP_PATTERN = 119304646 ∧
      (wrapInt (GetMaxWidth a b * Common.MODULES_IN_CODEWORD)).tdiv
        Common.MODULES_IN_STOP_PATTERN = 0) := by
  by_cases hr : pairResolved a b
  · left
    refine ⟨hr, ?_⟩
    cases a with
    | none => exact absurd rfl hr.1
    | some a =>
      cases b with
      | none => exact absurd rfl hr.2
      | some b =>
        obtain ⟨h0, h26⟩ := pairDistance_of_pixel_range a b ha hb
        unfold inPixelRange at ha hb
        obtain ⟨hmin, hmax⟩ := GetWidth_of_int_range a b (by omega) (by omega) (by omega)
          (by omega) (by omega)
        obtain ⟨hs, hs0, hsle⟩ := rescale_of_small (pairDistance a b) h0 (by omega)
        rw [hmin, hmax]
        exact ⟨pairDistance a b * 17 / 18, rfl, hs, hs, hs0, by omega⟩
  · right
    have hor : a = none ∨ b = none := by
      cases a with
      | none => exact Or.inl rfl
      | some a =>
        cases b with
        | none => exact Or.inr rfl
        | some b => exact absurd ⟨by simp, by simp⟩ hr
    refine ⟨hr, ?_, (minCandidates_of_not_resolved a b hor).2,
      (maxCandidates_of_not_resolved a b hor).2⟩
    cases a with
    | none => cases b <;> rfl
    | some a =>
      cases b with
      | none => rfl
      | some b => exact absurd ⟨by simp, by simp⟩ hr

/-- The width of two present points is negative only when `std::abs` overflows:
it is non-negative unless the difference of the truncated x-coordinates wraps
to -2^31. -/
theorem GetMinWidth_nonneg_iff (a b : ResultPoint) :
    0 ≤ GetMinWidth (some a) (some b) ↔ wrapInt (toInt a.x - toInt b.x) ≠ -2 ^ 31 := by
  show 0 ≤ wrapInt |wrapInt (toInt a.x - toInt b.x)| ↔ _
  have hr := wrapInt_range (toInt a.x - toInt b.x)
  constructor
  · intro h hneg
    rw [hneg] at h
    revert h
    decide
  · intro hne
    have hlt : |wrapInt (toInt a.x - toInt b.x)| < 2 ^ 31 :=
      abs_lt.mpr ⟨by omega, by omega⟩
    rw [wrapInt_of_range _ (by have := abs_nonneg (wrapInt (toInt a.x - toInt b.x)); omega)
      hlt]
    exact abs_nonneg _

/-- The width of two present points whose truncated x-coordinates are less than
2^31 apart is non-negative. -/
theorem GetMinWidth_nonneg_of_distance (a b : ResultPoint)
    (h : |toInt a.x - toInt b.x| < 2 ^ 31) : 0 ≤ GetMinWidth (some a) (some b) := by
  rw [GetMinWidth_nonneg_iff]
  have hlt := abs_lt.mp h
  rw [wrapInt_of_range _ (by omega) (by omega)]
  omega

end Scale

section ScaleClaims

/-- C11, as stated, fails: for the octet whose 8 points are absent,
`GetMinCodewordWidth` returns 119304646, not the sentinel
`std::numeric_limits<int>::max()` = 2^31 - 1. -/
theorem GetMinCodewordWidth_allAbsent_counterexample :
    Example.allAbsent.toList = [none, none, none, none, none, none, none, none] ∧
    INT_MAX = 2 ^ 31 - 1 ∧
    Common.MODULES_IN_CODEWORD = 17 ∧ Common.MODULES_IN_STOP_PATTERN = 18 ∧
    GetMinCodewordWidth Example.allAbsent = 119304646 ∧
    GetMinCodewordWidth Example.allAbsent ≠ INT_MAX := by
  decide

/-- C11, amended. For the octet whose 8 points are absent, and whenever each of
the four pairings (p0, p4), (p1, p5), (p6, p2), (p7, p3) has an absent point,
`GetMinCodewordWidth` returns the rescaled sentinel of the stop-pattern
pairings, `INT_MAX * 17 / 18` in 32-bit `int` arithmetic, which is 119304646:
less than the sentinel `INT_MAX` of the direct pairings, and more than every
width of the pixel range. -/
theorem GetMinCodewordWidth_of_no_pair_resolved (p : Points)
    (h04 : p.p0 = none ∨ p.p4 = none) (h15 : p.p1 = none ∨ p.p5 = none)
    (h62 : p.p6 = none ∨ p.p2 = none) (h73 : p.p7 = none ∨ p.p3 = none) :
    GetMinCodewordWidth p =
      (wrapInt (INT_MAX * Common.MODULES_IN_CODEWORD)).tdiv Common.MODULES_IN_STOP_PATTERN ∧
    GetMinCodewordWidth p = 119304646 ∧
    GetMinCodewordWidth p < INT_MAX ∧ 2 ^ 26 < GetMinCodewordWidth p := by
  have hvalue : GetMinCodewordWidth p = 119304646 := by
    unfold GetMinCodewordWidth
    rw [(minCandidates_of_not_resolved _ _ h04).1, (minCandidates_of_not_resolved _ _ h15).1,
      (minCandidates_of_not_resolved _ _ h62).2, (minCandidates_of_not_resolved _ _ h73).2]
    decide
  rw [hvalue, rescale_INT_MAX]
  decide

/-- Witness of C11, amended: the octet whose 8 points are absent. -/
theorem GetMinCodewordWidth_of_no_pair_resolved_witness :
    GetMinCodewordWidth Example.allAbsent = 119304646 :=
  (GetMinCodewordWidth_of_no_pair_resolved Example.allAbsent (Or.inl rfl) (Or.inl rfl)
    (Or.inl rfl) (Or.inl rfl)).2.1

/-- C12. For the octet whose 8 points are absent `GetMaxCodewordWidth` returns 0;
more generally it returns 0 whenever each of the four pairings (p0, p4),
(p1, p5), (p6, p2), (p7, p3) has at least one absent point. -/
theorem GetMaxCodewordWidth_of_no_pair_resolved (p : Points)
    (h04 : p.p0 = none ∨ p.p4 = none) (h15 : p.p1 = none ∨ p.p5 = none)
    (h62 : p.p6 = none ∨ p.p2 = none) (h73 : p.p7 = none ∨ p.p3 = none) :
    GetMaxCodewordWidth p = 0 := by
  unfold GetMaxCodewordWidth
  rw [(maxCandidates_of_not_resolved _ _ h04).1, (maxCandidates_of_not_resolved _ _ h15).1,
    (maxCandidates_of_not_resolved _ _ h62).2, (maxCandidates_of_not_resolved _ _ h73).2]
  decide

/-- Witness of C12: the octet whose 8 points are absent, and an octet with one
point of each pairing present. -/
theorem GetMaxCodewordWidth_of_no_pair_resolved_witness :
    GetMaxCodewordWidth Example.allAbsent = 0 ∧
    GetMaxCodewordWidth
      { Example.allAbsent with p0 := some ⟨10, 10⟩, p5 := some ⟨29, 50⟩,
                               p6 := some ⟨92, 10⟩, p3 := some ⟨110, 50⟩ } = 0 :=
  ⟨GetMaxCodewordWidth_of_no_pair_resolved Example.allAbsent (Or.inl rfl) (Or.inl rfl)
      (Or.inl rfl) (Or.inl rfl),
    GetMaxCodewordWidth_of_no_pair_resolved _ (Or.inr rfl) (Or.inl rfl) (Or.inr rfl)
      (Or.inl rfl)⟩

/-- C13. Min-of-four law: for every octet with its 8 points present,
`GetMinCodewordWidth` is less than or equal to the value `GetMinWidth` returns
for each of the four pairs (p0, p4), (p1, p5), (p6, p2) and (p7, p3). The law is
stated where the `int` arithmetic of line 36 is defined for the stop-pattern
pairs, that is where `GetMinWidth` returns a non-negative width for them: a
width is negative only when `std::abs` overflows, on truncated x-coordinates
exactly 2^31 apart. The rescaling by 17 may overflow. -/
theorem GetMinCodewordWidth_le_pair_widths (p : Points) (_hres : p.resolved)
    (h62 : 0 ≤ GetMinWidth p.p6 p.p2) (h73 : 0 ≤ GetMinWidth p.p7 p.p3) :
    GetMinCodewordWidth p ≤ GetMinWidth p.p0 p.p4 ∧
    GetMinCodewordWidth p ≤ GetMinWidth p.p1 p.p5 ∧
    GetMinCodewordWidth p ≤ GetMinWidth p.p6 p.p2 ∧
    GetMinCodewordWidth p ≤ GetMinWidth p.p7 p.p3 := by
  have hlt : ∀ a b : Nullable ResultPoint, GetMinWidth a b < 2 ^ 31 := by
    intro a b
    by_cases hr : pairResolved a b
    · cases a with
      | none => exact absurd rfl hr.1
      | some a =>
        cases b with
        | none => exact absurd rfl hr.2
        | some b => exact (wrapInt_range _).2
    · rw [(GetWidth_of_not_resolved a b hr).1]
      decide
  have hs62 := rescale_le_of_nonneg _ h62 (hlt p.p6 p.p2)
  have hs73 := rescale_le_of_nonneg _ h73 (hlt p.p7 p.p3)
  unfold GetMinCodewordWidth
  refine ⟨?_, ?_, ?_, ?_⟩
  · exact le_trans (min_le_left _ _) (min_le_left _ _)
  · exact le_trans (min_le_right _ _) (min_le_left _ _)
  · exact le_trans (le_trans (min_le_left _ _) (min_le_right _ _)) hs62
  · exact le_trans (le_trans (min_le_right _ _) (min_le_right _ _)) hs73

/-- Witness of C13: an octet with its 8 points present, of pair widths 17, 17,
18 and 18. -/
theorem GetMinCodewordWidth_le_pair_widths_witness :
    GetMinCodewordWidth Example.readable = 17 ∧
    GetMinWidth Example.readable.p6 Example.readable.p2 = 18 ∧
    GetMinCodewordWidth Example.readable ≤
      GetMinWidth Example.readable.p6 Example.readable.p2 :=
  ⟨by decide, by decide,
    (GetMinCodewordWidth_le_pair_widths Example.readable (by decide) (by decide)
      (by decide)).2.2.1⟩

/-- C14, as stated, fails: in an octet with its 8 points present whose pairs
(p0, p4) and (p1, p5) have width 17 and whose pairs (p6, p2) and (p7, p3) have
width 18, `GetMaxCodewordWidth` returns 17, less than the width 18 that
`GetMaxWidth` returns for (p6, p2). -/
theorem GetMaxCodewordWidth_ge_counterexample :
    Example.readable.resolved ∧
    GetMaxWidth Example.readable.p6 Example.readable.p2 = 18 ∧
    GetMaxCodewordWidth Example.readable = 17 ∧
    ¬ GetMaxWidth Example.readable.p6 Example.readable.p2 ≤
      GetMaxCodewordWidth Example.readable := by
  decide

/-- C14, amended. Max-of-four law: for every octet with its 8 points present,
`GetMaxCodewordWidth` is greater than or equal to the value `GetMaxWidth` returns
for the pairs (p0, p4) and (p1, p5), and to the rescaled value, `GetMaxWidth`
times 17 divided by 18 in `int` arithmetic, for the pairs (p6, p2) and (p7, p3);
the rescaled value is `w * 17 / 18` for a width `w` that does not overflow. -/
theorem GetMaxCodewordWidth_ge_candidates (p : Points) (_hres : p.resolved) :
    GetMaxWidth p.p0 p.p4 ≤ GetMaxCodewordWidth p ∧
    GetMaxWidth p.p1 p.p5 ≤ GetMaxCodewordWidth p ∧
    (wrapInt (GetMaxWidth p.p6 p.p2 * Common.MODULES_IN_CODEWORD)).tdiv
      Common.MODULES_IN_STOP_PATTERN ≤ GetMaxCodewordWidth p ∧
    (wrapInt (GetMaxWidth p.p7 p.p3 * Common.MODULES_IN_CODEWORD)).tdiv
      Common.MODULES_IN_STOP_PATTERN ≤ GetMaxCodewordWidth p ∧
    (0 ≤ GetMaxWidth p.p6 p.p2 → GetMaxWidth p.p6 p.p2 * 17 < 2 ^ 31 →
      GetMaxWidth p.p6 p.p2 * 17 / 18 ≤ GetMaxCodewordWidth p) ∧
    (0 ≤ GetMaxWidth p.p7 p.p3 → GetMaxWidth p.p7 p.p3 * 17 < 2 ^ 31 →
      GetMaxWidth p.p7 p.p3 * 17 / 18 ≤ GetMaxCodewordWidth p) := by
  have h1 : GetMaxWidth p.p0 p.p4 ≤ GetMaxCodewordWidth p :=
    le_trans (le_max_left _ _) (le_max_left _ _)
  have h2 : GetMaxWidth p.p1 p.p5 ≤ GetMaxCodewordWidth p :=
    le_trans (le_max_left _ _) (le_max_right _ _)
  have h3 : (wrapInt (GetMaxWidth p.p6 p.p2 * Common.MODULES_IN_CODEWORD)).tdiv
      Common.MODULES_IN_STOP_PATTERN ≤ GetMaxCodewordWidth p :=
    le_trans (le_max_right _ _) (le_max_left _ _)
  have h4 : (wrapInt (GetMaxWidth p.p7 p.p3 * Common.MODULES_IN_CODEWORD)).tdiv
      Common.MODULES_IN_STOP_PATTERN ≤ GetMaxCodewordWidth p :=
    le_trans (le_max_right _ _) (le_max_right _ _)
  refine ⟨h1, h2, h3, h4, ?_, ?_⟩
  · intro h0 hsmall
    rw [(rescale_of_small _ h0 hsmall).1] at h3
    exact h3
  · intro h0 hsmall
    rw [(rescale_of_small _ h0 hsmall).1] at h4
    exact h4

/-- Witness of C14, amended: the octet of the counterexample; the maximum 17 is
the width of (p0, p4) and the rescaled width 18 * 17 / 18 of (p6, p2). -/
theorem GetMaxCodewordWidth_ge_candidates_witness :
    GetMaxWidth Example.readable.p0 Example.readable.p4 = 17 ∧
    GetMaxWidth Example.readable.p6 Example.readable.p2 * 17 / 18 = 17 ∧
    GetMaxWidth Example.readable.p6 Example.readable.p2 * 17 / 18 ≤
      GetMaxCodewordWidth Example.readable :=
  ⟨by decide, by decide,
    (GetMaxCodewordWidth_ge_candidates Example.readable (by decide)).2.2.2.2.1
      (by decide) (by decide)⟩

/-- C18. For every octet in which at least one of the four pairings (p0, p4),
(p1, p5), (p6, p2), (p7, p3) is fully resolved, `GetMinCodewordWidth` is at most
`GetMaxCodewordWidth`; no ordering holds in general: for the octet whose 8
points are absent the minimum bound exceeds the maximum bound. -/
theorem GetMinCodewordWidth_le_GetMaxCodewordWidth (p : Points)
    (h : p.somePairResolved) :
    GetMinCodewordWidth p ≤ GetMaxCodewordWidth p ∧
    GetMaxCodewordWidth Example.allAbsent < GetMinCodewordWidth Example.allAbsent := by
  refine ⟨?_, by decide⟩
  unfold GetMinCodewordWidth GetMaxCodewordWidth
  rcases h with h | h | h | h
  · rw [GetMinWidth_eq_GetMaxWidth _ _ h]
    exact le_trans (le_trans (min_le_left _ _) (min_le_left _ _))
      (le_trans (le_max_left _ _) (le_max_left _ _))
  · rw [GetMinWidth_eq_GetMaxWidth _ _ h]
    exact le_trans (le_trans (min_le_right _ _) (min_le_left _ _))
      (le_trans (le_max_left _ _) (le_max_right _ _))
  · rw [GetMinWidth_eq_GetMaxWidth _ _ h]
    exact le_trans (le_trans (min_le_left _ _) (min_le_right _ _))
      (le_trans (le_max_right _ _) (le_max_left _ _))
  · rw [GetMinWidth_eq_GetMaxWidth _ _ h]
    exact le_trans (le_trans (min_le_right _ _) (min_le_right _ _))
      (le_trans (le_max_right _ _) (le_max_right _ _))

/-- Witness of C18: an octet in which the pairings (p0, p4) and (p1, p5) alone
are resolved has bounds 17 and 19; the octet whose 8 points are absent has
bounds 119304646 and 0. -/
theorem GetMinCodewordWidth_le_GetMaxCodewordWidth_witness :
    GetMinCodewordWidth Example.startOnly = 17 ∧
    GetMaxCodewordWidth Example.startOnly = 19 ∧
    GetMinCodewordWidth Example.allAbsent = 119304646 ∧
    GetMaxCodewordWidth Example.allAbsent = 0 ∧
    GetMinCodewordWidth Example.startOnly ≤ GetMaxCodewordWidth Example.startOnly :=
  ⟨by decide, by decide, by decide, by decide,
    (GetMinCodewordWidth_le_GetMaxCodewordWidth Example.startOnly (by decide)).1⟩

/-- C15, as stated, fails: for two present points of x-coordinates 9/10 and
11/10, `GetMinWidth` and `GetMaxWidth` return 1, the distance of the truncated
coordinates 0 and 1, while the distance 2/10 of the coordinates truncates
to 0. -/
theorem GetWidth_truncated_distance_counterexample :
    GetMinWidth (some Example.nineTenths) (some Example.elevenTenths) = 1 ∧
    GetMaxWidth (some Example.nineTenths) (some Example.elevenTenths) = 1 ∧
    truncate Example.nineTenths.x = 0 ∧ truncate Example.elevenTenths.x = 1 ∧
    truncate |Example.nineTenths.x - Example.elevenTenths.x| = 0 := by
  refine ⟨by decide, by decide, by decide, by decide, ?_⟩
  have h9 : Example.nineTenths.x = 9 / 10 := by
    show (⟨9, 10, _, _⟩ : ℚ) = 9 / 10
    rw [Rat.mk'_eq_divInt, Rat.divInt_eq_div]
    norm_num
  have h11 : Example.elevenTenths.x = 11 / 10 := by
    show (⟨11, 10, _, _⟩ : ℚ) = 11 / 10
    rw [Rat.mk'_eq_divInt, Rat.divInt_eq_div]
    norm_num
  apply truncate_eq_zero
  · exact abs_nonneg _
  · rw [h9, h11]
    norm_num [abs_lt]

/-- C15, amended. Pair width of two present points: for every two present
points whose x-coordinates truncate to `int`s at a distance below 2^31,
`GetMinWidth` and `GetMaxWidth` both return the absolute difference of the two
x-coordinates, each truncated toward zero to an integer before the
subtraction. -/
theorem GetWidth_eq_distance_of_truncations (a b : ResultPoint)
    (ha1 : -2 ^ 31 ≤ truncate a.x) (ha2 : truncate a.x < 2 ^ 31)
    (hb1 : -2 ^ 31 ≤ truncate b.x) (hb2 : truncate b.x < 2 ^ 31)
    (hd : |truncate a.x - truncate b.x| < 2 ^ 31) :
    GetMinWidth (some a) (some b) = |truncate a.x - truncate b.x| ∧
    GetMaxWidth (some a) (some b) = |truncate a.x - truncate b.x| :=
  GetWidth_of_int_range a b ha1 ha2 hb1 hb2 hd

/-- Witness of C15, amended: the points of x-coordinates 9/10 and 11/10. -/
theorem GetWidth_eq_distance_of_truncations_witness :
    |truncate Example.nineTenths.x - truncate Example.elevenTenths.x| = 1 ∧
    GetMinWidth (some Example.nineTenths) (some Example.elevenTenths) =
      |truncate Example.nineTenths.x - truncate Example.elevenTenths.x| ∧
    GetMaxWidth (some Example.nineTenths) (some Example.elevenTenths) =
      |truncate Example.nineTenths.x - truncate Example.elevenTenths.x| :=
  ⟨by decide,
    GetWidth_eq_distance_of_truncations Example.nineTenths Example.elevenTenths
      (by decide) (by decide) (by decide) (by decide) (by decide)⟩

/-- C16. Graceful degradation: for every octet whose present points have
truncated x-coordinates between 0 and 2^26 and in which at least one of the four
pairings (p0, p4), (p1, p5), (p6, p2), (p7, p3) is fully resolved,
`GetMinCodewordWidth` is the minimum, and `GetMaxCodewordWidth` the maximum, of
the candidate widths of the fully resolved pairings alone (the distance for
(p0, p4) and (p1, p5), the distance times 17 divided by 18 for (p6, p2) and
(p7, p3)): each bound is one of these candidates and bounds all of them, so the
pairings with an absent point change neither bound. -/
theorem scale_bounds_of_resolved_pairings (p : Points) (hrange : p.inPixelRange)
    (hsome : p.somePairResolved) :
    (GetMinCodewordWidth p ∈ resolvedCandidates p ∧
      ∀ w ∈ resolvedCandidates p, GetMinCodewordWidth p ≤ w) ∧
    (GetMaxCodewordWidth p ∈ resolvedCandidates p ∧
      ∀ w ∈ resolvedCandidates p, w ≤ GetMaxCodewordWidth p) := by
  obtain ⟨r0, r1, r2, r3, r4, r5, r6, r7⟩ := hrange
  unfold Points.somePairResolved at hsome
  unfold GetMinCodewordWidth GetMaxCodewordWidth resolvedCandidates
  rcases direct_pairing_cases p.p0 p.p4 r0 r4 with
    ⟨_, w1, hc1, hm1, hM1, h1a, h1b⟩ | ⟨hn1, hc1, hm1, hM1⟩ <;>
  rcases direct_pairing_cases p.p1 p.p5 r1 r5 with
    ⟨_, w2, hc2, hm2, hM2, h2a, h2b⟩ | ⟨hn2, hc2, hm2, hM2⟩ <;>
  rcases stop_pairing_cases p.p6 p.p2 r6 r2 with
    ⟨_, w3, hc3, hm3, hM3, h3a, h3b⟩ | ⟨hn3, hc3, hm3, hM3⟩ <;>
  rcases stop_pairing_cases p.p7 p.p3 r7 r3 with
    ⟨_, w4, hc4, hm4, hM4, h4a, h4b⟩ | ⟨hn4, hc4, hm4, hM4⟩ <;>
  rw [hc1, hm1, hM1, hc2, hm2, hM2, hc3, hm3, hM3, hc4, hm4, hM4] <;>
  first
    | exact absurd hsome (not_or.mpr ⟨hn1, not_or.mpr ⟨hn2, not_or.mpr ⟨hn3, hn4⟩⟩⟩)
    | (simp only [List.cons_append, List.nil_append, List.append_nil, List.mem_cons,
        List.mem_singleton, List.not_mem_nil, or_false, forall_eq_or_imp, forall_eq]
       omega)

/-- Witness of C16: with the pairings (p0, p4) and (p1, p5) alone resolved, of
widths 17 and 19, the bounds are 17 and 19; with the pairing (p6, p2) alone
resolved, of width 36, both bounds are 36 * 17 / 18 = 34. -/
theorem scale_bounds_of_resolved_pairings_witness :
    resolvedCandidates Example.startOnly = [17, 19] ∧
    GetMinCodewordWidth Example.startOnly = 17 ∧
    GetMaxCodewordWidth Example.startOnly = 19 ∧
    resolvedCandidates Example.stopOnly = [34] ∧
    GetMinCodewordWidth Example.stopOnly = 34 ∧
    GetMaxCodewordWidth Example.stopOnly = 34 ∧
    (GetMinCodewordWidth Example.stopOnly ∈ resolvedCandidates Example.stopOnly ∧
      ∀ w ∈ resolvedCandidates Example.stopOnly, GetMinCodewordWidth Example.stopOnly ≤ w) :=
  ⟨by decide, by decide, by decide, by decide, by decide, by decide,
    (scale_bounds_of_resolved_pairings Example.stopOnly (by decide) (by decide)).1⟩

/-- C17. Scale bounds are non-negative: for every octet, whichever of its points
are absent, whose present points have truncated x-coordinates between 0 and
2^26, `GetMinCodewordWidth` and `GetMaxCodewordWidth` are non-negative in 32-bit
two's-complement `int` arithmetic, the rescaling of the sentinel of a
stop-pattern pairing with an absent point included. -/
theorem scale_bounds_nonneg (p : Points) (hrange : p.inPixelRange) :
    0 ≤ GetMinCodewordWidth p ∧ 0 ≤ GetMaxCodewordWidth p := by
  obtain ⟨r0, r1, r2, r3, r4, r5, r6, r7⟩ := hrange
  unfold GetMinCodewordWidth GetMaxCodewordWidth
  rcases direct_pairing_cases p.p0 p.p4 r0 r4 with
    ⟨_, w1, _, hm1, hM1, h1a, h1b⟩ | ⟨_, _, hm1, hM1⟩ <;>
  rcases direct_pairing_cases p.p1 p.p5 r1 r5 with
    ⟨_, w2, _, hm2, hM2, h2a, h2b⟩ | ⟨_, _, hm2, hM2⟩ <;>
  rcases stop_pairing_cases p.p6 p.p2 r6 r2 with
    ⟨_, w3, _, hm3, hM3, h3a, h3b⟩ | ⟨_, _, hm3, hM3⟩ <;>
  rcases stop_pairing_cases p.p7 p.p3 r7 r3 with
    ⟨_, w4, _, hm4, hM4, h4a, h4b⟩ | ⟨_, _, hm4, hM4⟩ <;>
  rw [hm1, hM1, hm2, hM2, hm3, hM3, hm4, hM4] <;>
  omega

/-- Witness of C17: the octet whose 8 points are absent, and an octet with the
stop-pattern pairings unresolved. -/
theorem scale_bounds_nonneg_witness :
    GetMinCodewordWidth Example.allAbsent = 119304646 ∧
    GetMaxCodewordWidth Example.allAbsent = 0 ∧
    (0 ≤ GetMinCodewordWidth Example.allAbsent ∧ 0 ≤ GetMaxCodewordWidth Example.allAbsent) ∧
    (0 ≤ GetMinCodewordWidth Example.startOnly ∧ 0 ≤ GetMaxCodewordWidth Example.startOnly) :=
  ⟨by decide, by decide, scale_bounds_nonneg Example.allAbsent (by decide),
    scale_bounds_nonneg Example.startOnly (by decide)⟩

end ScaleClaims

end Pdf417

end ZXing
